import Mathlib

/-!
# Verification of the libweave core slice

Shallow embedding of the libweave sources present in this repository slice:

* `src/component_manager.cc`  — `weave::ComponentManager` (trait registry,
  component tree, command admission, state journal);
* `src/privet/security_manager.cc` — `weave::privet::SecurityManager`
  (pairing sessions, brute-force throttle);
* the in-repo unit tests for `AccessRevocationManagerImpl` and
  `DeviceRegistrationInfo` (whose implementations are not part of the slice;
  those operations are modelled from the specification, as marked).

Conventions of the embedding:

* `base::Value` trees are modelled by `JValue`; `base::DictionaryValue` is an
  association list `JDict` whose list order stands for the dictionary's own
  iteration order (first entry = first entry the iterator yields).
* machine integers are `Int`/`Nat`; times are `Int` seconds.
* fallible C++ members returning `bool` + `ErrorPtr` become `Except Err _`
  (or explicitly paired results where the source mutates state before
  failing); `CHECK` failures (process aborts) are the distinguished outcome
  `Err.check`.
* external primitives that live outside the slice (HMAC-SHA256, base64,
  P224-SPAKE, GUID generation) are parameters of the model.
-/

namespace Weave

/-! ## String helpers (src/string_utils.cc: `Split`, `SplitAtFirst`;
    base::TrimWhitespaceASCII, base::StringToInt).  These are implemented by
    structural recursion over the character list so that all definitions
    evaluate inside the kernel. -/

/-- ASCII whitespace, as trimmed by `base::TrimWhitespaceASCII`. -/
def isWSpace (c : Char) : Bool :=
  c = ' ' || c = '\t' || c = '\n' || c = '\r'

/-- Drop leading whitespace of a character list. -/
def dropLeadWS (l : List Char) : List Char := l.dropWhile isWSpace

/-- Trim whitespace from both ends of a string. -/
def trimStr (s : String) : String :=
  String.mk ((dropLeadWS ((dropLeadWS s.data.reverse).reverse)))

/-- Split a character list at every occurrence of delimiter `c`
    (the n-delimiter string yields n+1 pieces; splitting the empty string
    yields one empty piece, as `Split` does). -/
def splitOnChar (c : Char) : List Char → List (List Char)
  | [] => [[]]
  | x :: xs =>
    let r := splitOnChar c xs
    if x = c then [] :: r
    else
      match r with
      | [] => [[x]]
      | h :: t => (x :: h) :: t

/-- `Split(str, delim, trim_whitespaces, purge_empty_strings)` for a
    single-character delimiter, as used throughout `component_manager.cc`. -/
def splitParts (s : String) (c : Char) (doTrim : Bool) (purge : Bool) : List String :=
  let parts := (splitOnChar c s.data).map String.mk
  let parts := if doTrim then parts.map trimStr else parts
  if purge then parts.filter (fun p => p ≠ "") else parts

/-- Break a character list at the first occurrence of `c`:
    `none` when `c` does not occur, otherwise the pieces before and after. -/
def breakAtFirst (c : Char) : List Char → Option (List Char × List Char)
  | [] => none
  | x :: xs =>
    if x = c then some ([], xs)
    else (breakAtFirst c xs).map (fun p => (x :: p.1, p.2))

/-- `SplitAtFirst(str, delim, trim_whitespaces)`: the pieces before and after
    the first occurrence of the delimiter; the second piece is empty when the
    delimiter does not occur. -/
def splitAtFirst (s : String) (c : Char) (doTrim : Bool) : String × String :=
  let p :=
    match breakAtFirst c s.data with
    | none => (s, "")
    | some q => (String.mk q.1, String.mk q.2)
  if doTrim then (trimStr p.1, trimStr p.2) else p

/-- Digits of a character list as a number; `none` on a non-digit. -/
def digitsToNat : List Char → Option Nat
  | [] => some 0
  | c :: cs =>
    if c.isDigit then
      (digitsToNat cs).map (fun n => (c.toNat - 48) * 10 ^ cs.length + n)
    else none

/-- `base::StringToInt`: an optional minus sign followed by at least one
    digit, consuming the whole string (overflow clamping is not modelled;
    no claim depends on it). -/
def parseInt? (s : String) : Option Int :=
  match s.data with
  | [] => none
  | '-' :: rest =>
    match rest with
    | [] => none
    | _ => (digitsToNat rest).map (fun n => -(n : Int))
  | l => (digitsToNat l).map (fun n => (n : Int))

/-! ## `base::Value` trees

`JValue` models the tagged value of base/values.h.  A `base::DictionaryValue`
is a `JDict`; the list order models the dictionary's iteration order. -/

inductive JValue where
  | null
  | bool (b : Bool)
  | int (n : Int)
  | str (s : String)
  | list (xs : List JValue)
  | dict (kvs : List (String × JValue))
deriving Repr, Inhabited

/-- Association-list form of `base::DictionaryValue`. -/
abbrev JDict := List (String × JValue)

mutual
/-- `base::Value::Equals` (dictionaries have a canonical entry order in the
    source — `std::map` —, so entrywise comparison models map equality). -/
def beqJ : JValue → JValue → Bool
  | .null, .null => true
  | .bool a, .bool b => a = b
  | .int a, .int b => a = b
  | .str a, .str b => a = b
  | .list a, .list b => beqL a b
  | .dict a, .dict b => beqD a b
  | _, _ => false
/-- `beqJ` on lists of values. -/
def beqL : List JValue → List JValue → Bool
  | [], [] => true
  | a :: as, b :: bs => beqJ a b && beqL as bs
  | _, _ => false
/-- `beqJ` on dictionary entry lists. -/
def beqD : List (String × JValue) → List (String × JValue) → Bool
  | [], [] => true
  | (k1, v1) :: as, (k2, v2) :: bs => k1 = k2 && beqJ v1 v2 && beqD as bs
  | _, _ => false
end

/-- `GetWithoutPathExpansion`: direct key lookup. -/
def dictGet (d : JDict) (k : String) : Option JValue :=
  match d.find? (fun kv => kv.1 = k) with
  | some kv => some kv.2
  | none => none

/-- `SetWithoutPathExpansion`: replace the value at the key in place, or
    append a fresh entry. -/
def dictSet (d : JDict) (k : String) (v : JValue) : JDict :=
  match d with
  | [] => [(k, v)]
  | (k', v') :: rest => if k' = k then (k, v) :: rest else (k', v') :: dictSet rest k v

/-- `Get(path)` over already-split path keys: descend through nested
    dictionaries, final key may hold any value. -/
def dictGetKeys : JDict → List String → Option JValue
  | _, [] => none
  | d, [k] => dictGet d k
  | d, k :: rest =>
    match dictGet d k with
    | some (.dict d') => dictGetKeys d' rest
    | _ => none

/-- `Set(path, value)` over already-split path keys: intermediate keys that
    are missing or hold a non-dictionary are (re)created as dictionaries. -/
def dictSetKeys : JDict → List String → JValue → JDict
  | d, [], _ => d
  | d, [k], v => dictSet d k v
  | d, k :: rest, v =>
    let child : JDict :=
      match dictGet d k with
      | some (.dict d') => d'
      | _ => []
    dictSet d k (.dict (dictSetKeys child rest v))

/-- `base::DictionaryValue::Get` with path expansion (split on dots). -/
def dictGetPath (d : JDict) (path : String) : Option JValue :=
  dictGetKeys d ((splitOnChar '.' path.data).map String.mk)

/-- `base::DictionaryValue::Set` with path expansion (split on dots). -/
def dictSetPath (d : JDict) (path : String) (v : JValue) : JDict :=
  dictSetKeys d ((splitOnChar '.' path.data).map String.mk) v

/-- `GetDictionary(path)`: `Get` plus a dictionary type check. -/
def dictGetDictPath (d : JDict) (path : String) : Option JDict :=
  match dictGetPath d path with
  | some (.dict x) => some x
  | _ => none

mutual
/-- `base::DictionaryValue::MergeDictionary`: union keys; on a key present in
    both with dictionary values on both sides, merge recursively; otherwise
    the source value replaces. -/
def mergeDict : JDict → JDict → JDict
  | base, [] => base
  | base, (k, v) :: rest => mergeDict (mergeStep base k v) rest
/-- One `MergeDictionary` step: fold the source entry `(k, v)` into `base`. -/
def mergeStep (base : JDict) (k : String) : JValue → JDict
  | .dict sv =>
    match dictGet base k with
    | some (.dict bv) => dictSet base k (.dict (mergeDict bv sv))
    | _ => dictSet base k (.dict sv)
  | v => dictSet base k v
end

/-! ## Errors and roles -/

/-- Outcome of a fallible `ComponentManager` member: an error of a given kind
    (the kind strings travel verbatim), a `CommandInstance::FromJson` parse
    failure (whose kinds arise outside this slice), or a `CHECK` abort. -/
inductive Err where
  | kind (k : String)
  | parseFail
  | check
deriving Repr, DecidableEq

/-- `weave::UserRole`: viewer < user < manager < owner. -/
inductive UserRole where
  | viewer
  | user
  | manager
  | owner
deriving Repr, DecidableEq

/-- Underlying integer of the `UserRole` enum, used by `operator<`. -/
def UserRole.toNat : UserRole → Nat
  | .viewer => 0
  | .user => 1
  | .manager => 2
  | .owner => 3

/-- `StringToEnum<UserRole>`. -/
def roleFromString : String → Option UserRole
  | "viewer" => some .viewer
  | "user" => some .user
  | "manager" => some .manager
  | "owner" => some .owner
  | _ => none

/-! ## Component-tree navigation (`ComponentManager::FindComponentAt`) -/

/-- Parse one dotted-path element `name` or `name[index]`:
    the key and the optional array index, or the error the source reports
    (`propertyMissing` for an empty element or missing `]`, `invalidPropValue`
    for an unparsable or negative index). -/
def parseElement (p : String) : Except Err (String × Option Nat) :=
  let el := splitAtFirst p '[' true
  if el.1 = "" then .error (.kind "propertyMissing")
  else if el.2 = "" then .ok (el.1, none)
  else if ¬ el.2.data.getLast? = some ']' then .error (.kind "propertyMissing")
  else
    let idxStr := trimStr (String.mk (el.2.data.dropLast))
    match parseInt? idxStr with
    | none => .error (.kind "invalidPropValue")
    | some i => if i < 0 then .error (.kind "invalidPropValue") else .ok (el.1, some i.toNat)

/-- One navigation step at the effective root `r`: look up `key`
    (`propertyMissing` when absent), enforce the array/dictionary agreement
    with the presence of an index (`typeMismatch` otherwise), and index into
    component arrays (`propertyMissing` on a missing or non-dictionary item).
    Returns the child together with the rebuild function used by the mutating
    counterpart (the C++ code mutates through the returned pointer).
    A leaf value that is neither list nor dictionary aborts (`CHECK`). -/
def stepDescend (r : JDict) (key : String) (idx? : Option Nat) :
    Except Err (JDict × (JDict → JDict)) :=
  match dictGet r key with
  | none => .error (.kind "propertyMissing")
  | some v =>
    match v, idx? with
    | .list _, none => .error (.kind "typeMismatch")
    | .dict _, some _ => .error (.kind "typeMismatch")
    | .dict d, none => .ok (d, fun d' => dictSet r key (.dict d'))
    | .list xs, some i =>
      match xs.get? i with
      | some (.dict d) => .ok (d, fun d' => dictSet r key (.list (xs.set i (.dict d'))))
      | _ => .error (.kind "propertyMissing")
    | _, _ => .error .check

/-- The effective root of a step: the tree root for the first path element,
    afterwards the `"components"` child of the current component
    (`propertyMissing` when absent or not a dictionary). -/
def effectiveRoot (root : JDict) (first : Bool) : Except Err JDict :=
  if first then .ok root
  else
    match dictGet root "components" with
    | some (.dict d) => .ok d
    | _ => .error (.kind "propertyMissing")

/-- The loop of `ComponentManager::FindComponentAt` over split path parts. -/
def goFind : JDict → List String → Bool → Except Err JDict
  | root, [], _ => .ok root
  | root, p :: rest, first =>
    match parseElement p with
    | .error e => .error e
    | .ok (key, idx?) =>
      match effectiveRoot root first with
      | .error e => .error e
      | .ok r =>
        match stepDescend r key idx? with
        | .error e => .error e
        | .ok (child, _) => goFind child rest false

/-- `ComponentManager::FindComponentAt` (= `FindComponent`): resolve a dotted
    component path with optional `[i]` array indices. -/
def findComponentAt (root : JDict) (path : String) : Except Err JDict :=
  goFind root (splitParts path '.' true false) true

/-- Functional counterpart of `FindMutableComponent` followed by a mutation
    `f` of the found component: the same traversal as `goFind`, rebuilding
    the tree around the modified node. -/
def goModify : JDict → List String → Bool → (JDict → Except Err JDict) → Except Err JDict
  | root, [], _, f => f root
  | root, p :: rest, first, f =>
    match parseElement p with
    | .error e => .error e
    | .ok (key, idx?) =>
      if first then
        match stepDescend root key idx? with
        | .error e => .error e
        | .ok (child, rebuild) => (goModify child rest false f).map rebuild
      else
        match dictGet root "components" with
        | some (.dict comps) =>
          match stepDescend comps key idx? with
          | .error e => .error e
          | .ok (child, rebuild) =>
            (goModify child rest false f).map
              (fun child' => dictSet root "components" (.dict (rebuild child')))
        | _ => .error (.kind "propertyMissing")

/-- Apply `f` to the component at `path` (mutation through the pointer
    returned by `FindMutableComponent`). -/
def modifyComponentAt (root : JDict) (path : String)
    (f : JDict → Except Err JDict) : Except Err JDict :=
  goModify root (splitParts path '.' true false) true f

/-! ## `ComponentManager` state and operations -/

/-- The state-change journal entry of one component: (timestamp, diff). -/
abbrev StateChange := Int × JDict

/-- Mutable state of a `ComponentManager`:
    `traits_`, `components_`, `next_command_id_`, `last_state_change_id_`
    and `state_change_queues_` (association list component-path ↦ journal). -/
structure CMState where
  traits : JDict
  components : JDict
  nextCommandId : Nat
  lastStateChangeId : Nat
  stateChangeQueues : List (String × List StateChange)
deriving Repr, Inhabited

/-- A freshly constructed `ComponentManager`. -/
def cmFresh : CMState :=
  { traits := [], components := [], nextCommandId := 0,
    lastStateChangeId := 0, stateChangeQueues := [] }

/-- `kMaxStateChangeQueueSize`. -/
def kMaxStateChangeQueueSize : Nat := 100

/-- `ComponentManager::FindTraitDefinition`:
    `GetDictionaryWithoutPathExpansion` on the trait registry. -/
def findTraitDefinition (traits : JDict) (name : String) : Option JDict :=
  match dictGet traits name with
  | some (.dict d) => some d
  | _ => none

/-- `ComponentManager::FindCommandDefinition`: `command_name` must split on
    dots into exactly two parts `t.c`; look up `t.commands.c` in the trait
    registry with path expansion. -/
def findCommandDefinition (traits : JDict) (commandName : String) : Option JDict :=
  match splitParts commandName '.' true false with
  | [t, c] => dictGetDictPath traits (t ++ ".commands." ++ c)
  | _ => none

/-- The `minimalRole` attribute of a command definition, parsed as a role
    (`GetString` plus `StringToEnum`; both are `CHECK`ed in the source). -/
def minimalRoleOf (cmdDef : JDict) : Option UserRole :=
  match dictGetPath cmdDef "minimalRole" with
  | some (.str s) => roleFromString s
  | _ => none

/-- `ComponentManager::GetMinimalRole`: `invalidCommandName` when the command
    has no definition; the `CHECK`s on a malformed definition abort. -/
def getMinimalRole (traits : JDict) (commandName : String) : Except Err UserRole :=
  match findCommandDefinition traits commandName with
  | none => .error (.kind "invalidCommandName")
  | some d =>
    match minimalRoleOf d with
    | some r => .ok r
    | none => .error .check

/-- The trait-support loop of `ComponentManager::AddCommand`: scan the
    component's `traits` list for the command's trait name; a non-string
    entry encountered before a match aborts (`CHECK(value->GetAsString(..))`). -/
def traitSupported : List JValue → String → Except Err Bool
  | [], _ => .ok false
  | v :: rest, t =>
    match v with
    | .str s => if s = t then .ok true else traitSupported rest t
    | _ => .error .check

/-- The parsed fields of a `CommandInstance` that `AddCommand` consults. -/
structure CmdInst where
  name : String
  component : String
deriving Repr, DecidableEq

/-- The component path `AddCommand` targets: the instance's own component,
    or the first entry of the component tree when unspecified (`none` when
    the tree is empty). -/
def resolveComponentPath (s : CMState) (c : CmdInst) : Option String :=
  if c.component = "" then (s.components.head?).map (fun kv => kv.1)
  else some c.component

/-- `ComponentManager::AddCommand(dict, role, id, error)`.  The input is the
    result of `CommandInstance::FromJson` (that parser lives outside this
    slice; `none` models its failure).  On success: the freshly assigned
    decimal id and the manager with `next_command_id_` advanced. -/
def addCommand (s : CMState) (cmd? : Option CmdInst) (role : UserRole) :
    Except Err (String × CMState) :=
  match cmd? with
  | none => .error .parseFail
  | some c =>
    match getMinimalRole s.traits c.name with
    | .error e => .error e
    | .ok minimalRole =>
      if role.toNat < minimalRole.toNat then .error (.kind "access_denied")
      else
        match resolveComponentPath s c with
        | none => .error (.kind "component_not_found")
        | some componentPath =>
          match findComponentAt s.components componentPath with
          | .error e => .error e
          | .ok component =>
            let traitName := (splitAtFirst c.name '.' true).1
            let supported : Except Err Bool :=
              match dictGetPath component "traits" with
              | some (.list xs) => traitSupported xs traitName
              | _ => .ok false
            match supported with
            | .error e => .error e
            | .ok false => .error (.kind "trait_not_supported")
            | .ok true =>
              .ok (toString (s.nextCommandId + 1),
                   { s with nextCommandId := s.nextCommandId + 1 })

/-- Body of `ComponentManager::AddComponent` acting on the graft root:
    reject an existing name (`invalidState`) or an undefined trait
    (`invalidPropValue`), otherwise insert `{"traits": [...]}`. -/
def addComponentBody (tdefs : JDict) (name : String) (traits : List String)
    (root : JDict) : Except Err JDict :=
  if (dictGet root name).isSome then .error (.kind "invalidState")
  else if traits.any (fun t => (findTraitDefinition tdefs t).isNone) then
    .error (.kind "invalidPropValue")
  else .ok (dictSet root name (.dict [("traits", .list (traits.map .str))]))

/-- `FindComponentGraftNode` + a mutation of the graft node: resolve the
    parent component, then apply `f` to its `"components"` dictionary
    (created when absent or non-dictionary), writing the result back. -/
def modifyGraftNode (root : JDict) (path : String)
    (f : JDict → Except Err JDict) : Except Err JDict :=
  modifyComponentAt root path (fun comp =>
    let comps : JDict :=
      match dictGet comp "components" with
      | some (.dict d) => d
      | _ => []
    match f comps with
    | .error e => .error e
    | .ok comps' => .ok (dictSet comp "components" (.dict comps')))

/-- `ComponentManager::AddComponent`. -/
def addComponent (s : CMState) (path name : String) (traits : List String) :
    Except Err CMState :=
  let r :=
    if path = "" then addComponentBody s.traits name traits s.components
    else modifyGraftNode s.components path (addComponentBody s.traits name traits)
  match r with
  | .error e => .error e
  | .ok comps => .ok { s with components := comps }

/-- Body of `ComponentManager::AddComponentArrayItem` acting on the graft
    root: fetch the array-valued child `name` (a missing or non-list value is
    replaced by a fresh array) and append `{"traits": [...]}`.  No name or
    trait validation is performed. -/
def addComponentArrayItemBody (name : String) (traits : List String)
    (root : JDict) : Except Err JDict :=
  let arr : List JValue :=
    match dictGet root name with
    | some (.list xs) => xs
    | _ => []
  .ok (dictSet root name (.list (arr ++ [.dict [("traits", .list (traits.map .str))]])))

/-- `ComponentManager::AddComponentArrayItem`. -/
def addComponentArrayItem (s : CMState) (path name : String)
    (traits : List String) : Except Err CMState :=
  let r :=
    if path = "" then addComponentArrayItemBody name traits s.components
    else modifyGraftNode s.components path (addComponentArrayItemBody name traits)
  match r with
  | .error e => .error e
  | .ok comps => .ok { s with components := comps }

/-- The loop of `ComponentManager::LoadTraits` over the input dictionary's
    entries, carrying the `modified` flag.  A non-object value or a
    redefinition with a non-equal body stops the loop with `result = false`,
    keeping the insertions made so far.  Returns
    (result, new trait registry, modified). -/
def loadTraitsAux : JDict → Bool → JDict → Bool × JDict × Bool
  | tr, modified, [] => (true, tr, modified)
  | tr, modified, (k, v) :: rest =>
    match v with
    | .dict body =>
      match dictGetDictPath tr k with
      | some existing =>
        if beqD existing body then loadTraitsAux tr modified rest
        else (false, tr, modified)
      | none => loadTraitsAux (dictSetPath tr k (.dict body)) true rest
    | _ => (false, tr, modified)

/-- `ComponentManager::LoadTraits(dict, error)`.  The third component records
    whether the trait registry was modified — exactly the condition under
    which the trait-changed callbacks fire. -/
def loadTraits (tr : JDict) (input : JDict) : Bool × JDict × Bool :=
  loadTraitsAux tr false input

/-- The state-mutation `SetStateProperties` performs on the found component:
    merge the diff into the `"state"` child (created when absent or not a
    dictionary).  Never fails. -/
def applyStateDiff (diff : JDict) (comp : JDict) : Except Err JDict :=
  let st : JDict :=
    match dictGetPath comp "state" with
    | some (.dict d) => d
    | _ => []
  .ok (dictSet comp "state" (.dict (mergeDict st diff)))

/-- `StateChangeQueue::NotifyPropertiesUpdated`.
    Modelled from the spec: the per-component journal (the implementation is
    not part of this slice) is a bounded FIFO of capacity
    `kMaxStateChangeQueueSize` = 100 whose overflow drops the oldest entry. -/
def journalAppend (q : List StateChange) (t : Int) (diff : JDict) : List StateChange :=
  let q' := q ++ [(t, diff)]
  if kMaxStateChangeQueueSize < q'.length then q'.tail else q'

/-- Append to the journal of `path` in `state_change_queues_`, creating the
    queue when absent. -/
def queuesAppend (qs : List (String × List StateChange)) (path : String)
    (t : Int) (diff : JDict) : List (String × List StateChange) :=
  match qs with
  | [] => [(path, journalAppend [] t diff)]
  | (p, q) :: rest =>
    if p = path then (p, journalAppend q t diff) :: rest
    else (p, q) :: queuesAppend rest path t diff

/-- `ComponentManager::SetStateProperties(component_path, dict, error)`;
    `now` is the injected clock's current time. -/
def setStateProperties (s : CMState) (path : String) (diff : JDict) (now : Int) :
    Except Err CMState :=
  match modifyComponentAt s.components path (applyStateDiff diff) with
  | .error e => .error e
  | .ok comps =>
    .ok { s with
          components := comps,
          lastStateChangeId := s.lastStateChangeId + 1,
          stateChangeQueues := queuesAppend s.stateChangeQueues path now diff }

/-- `ComponentManager::SetStateProperty(component_path, name, value, error)`:
    reject (`propertyMissing`) when splitting `name` at the first dot leaves
    an empty package or property part, otherwise delegate to
    `SetStateProperties` with the dictionary `{name: value}` built with path
    expansion of the dotted name. -/
def setStateProperty (s : CMState) (path name : String) (v : JValue) (now : Int) :
    Except Err CMState :=
  let pair := splitAtFirst name '.' true
  if pair.1 = "" then .error (.kind "propertyMissing")
  else if pair.2 = "" then .error (.kind "propertyMissing")
  else setStateProperties s path (dictSetPath [] name v) now

/-- One entry of the drained snapshot: (timestamp, component path, diff). -/
abbrev ComponentStateChange := Int × String × JDict

/-- `ComponentManager::StateSnapshot`. -/
structure StateSnapshot where
  updateId : Nat
  stateChanges : List ComponentStateChange
deriving Repr, Inhabited

/-- All journal entries across components, tagged with their component path,
    in journal order (the concatenation the source builds before sorting). -/
def allJournalEntries (s : CMState) : List ComponentStateChange :=
  (s.stateChangeQueues.map (fun pq => pq.2.map (fun td => (td.1, pq.1, td.2)))).flatten

/-- Timestamp order on snapshot entries (the `std::sort` predicate is `<` on
    timestamps; the model sorts with the reflexive closure, a legitimate
    refinement of the unstable `std::sort` for claims about the order). -/
def tsLE (a b : ComponentStateChange) : Prop := a.1 ≤ b.1

instance : DecidableRel tsLE := fun a b => Int.decLe a.1 b.1

/-- `ComponentManager::GetAndClearRecordedStateChanges`: the current
    update id plus all journal entries sorted by timestamp; all journals are
    emptied. -/
def getAndClearRecordedStateChanges (s : CMState) : StateSnapshot × CMState :=
  ({ updateId := s.lastStateChangeId,
     stateChanges := List.insertionSort tsLE (allJournalEntries s) },
   { s with stateChangeQueues := [] })

instance : IsTotal ComponentStateChange tsLE :=
  ⟨fun a b => Int.le_total a.1 b.1⟩

instance : IsTrans ComponentStateChange tsLE :=
  ⟨fun _ _ _ h1 h2 => le_trans h1 h2⟩

/-- One `SetStateProperties` call of a call sequence: a failed call leaves
    the state unchanged, a successful one marks the flag. -/
def applySetsStep (acc : CMState × Bool) (op : String × JDict × Int) :
    CMState × Bool :=
  match setStateProperties acc.1 op.1 op.2.1 op.2.2 with
  | .ok s' => (s', true)
  | .error _ => acc

/-- A sequence of `SetStateProperties` calls, applied in order; failed calls
    leave the state unchanged.  The boolean records whether at least one call
    succeeded (i.e. at least one new diff was recorded). -/
def applySets (s : CMState) (ops : List (String × JDict × Int)) : CMState × Bool :=
  ops.foldl applySetsStep (s, false)

/-! ## `SecurityManager` (src/privet/security_manager.cc)

Times are `Int` seconds; `base::Time{}` is `0`.  HMAC-SHA256, base64 and the
P224-SPAKE exchanger are outside the slice and enter as parameters
(`Crypto`); the session GUID is an oracle argument whose freshness — the
exit condition of the generation loop — appears as a theorem hypothesis. -/

/-- `weave::PairingType`. -/
inductive PairingType where
  | pinCode
  | embeddedCode
deriving Repr, DecidableEq

/-- `weave::privet::CryptoType`. -/
inductive CryptoType where
  | none
  | spake_p224
deriving Repr, DecidableEq

/-- A `SecurityManager::KeyExchanger`, reduced to its observable behaviour:
    the outgoing message, whether `ProcessMessage` accepts a peer message,
    and the key established from it. -/
structure KeyExchanger where
  message : List Nat
  processOk : List Nat → Bool
  keyFn : List Nat → List Nat

/-- Bytes of a pairing-code string (as `std::string` iterators produce). -/
def strBytes (s : String) : List Nat := s.data.map Char.toNat

/-- The `UnsecureKeyExchanger`: echoes the code as message and key. -/
def unsecureExchanger (code : String) : KeyExchanger :=
  { message := strBytes code, processOk := fun _ => true, keyFn := fun _ => strBytes code }

/-- The external cryptographic collaborators of `SecurityManager`. -/
structure Crypto where
  hmac : List Nat → List Nat → List Nat
  b64enc : List Nat → String
  b64dec : String → Option (List Nat)
  fingerprint : List Nat
  mkSpake : String → KeyExchanger

/-- `kSessionExpirationTimeMinutes` and `kPairingExpirationTimeMinutes`
    (5 min), in seconds. -/
def kSessionExpirationSeconds : Int := 300

/-- `kMaxAllowedPairingAttemts` (sic). -/
def kMaxAllowedPairingAttemts : Nat := 3

/-- `kPairingBlockingTimeMinutes` (1 min), in seconds. -/
def kPairingBlockingSeconds : Int := 60

/-- A scheduled delayed task: (due time, session id, for-confirmed?). -/
abbrev ExpiryTask := Int × String × Bool

/-- Mutable state of a `SecurityManager`.  Confirmed sessions carry the key
    their exchanger established. -/
structure SMState where
  securityDisabled : Bool
  pairingModes : List PairingType
  embeddedCode : String
  pendingSessions : List (String × KeyExchanger)
  confirmedSessions : List (String × List Nat)
  pairingAttempts : Nat
  blockPairingUntil : Int
  tasks : List ExpiryTask

/-- A freshly constructed, security-enabled manager. -/
def freshSM (modes : List PairingType) (code : String) : SMState :=
  { securityDisabled := false, pairingModes := modes, embeddedCode := code,
    pendingSessions := [], confirmedSessions := [],
    pairingAttempts := 0, blockPairingUntil := 0, tasks := [] }

/-- Ids of the pending sessions. -/
def pendingIds (s : SMState) : List String := s.pendingSessions.map (fun kv => kv.1)

/-- Ids of the confirmed sessions. -/
def confirmedIds (s : SMState) : List String := s.confirmedSessions.map (fun kv => kv.1)

/-- `SecurityManager::ClosePendingSession`: whether the id was present, and
    the state with the session erased. -/
def closePendingSession (s : SMState) (sid : String) : Bool × SMState :=
  (s.pendingSessions.any (fun kv => kv.1 = sid),
   { s with pendingSessions := s.pendingSessions.filter (fun kv => ¬ kv.1 = sid) })

/-- `SecurityManager::CloseConfirmedSession`. -/
def closeConfirmedSession (s : SMState) (sid : String) : Bool × SMState :=
  (s.confirmedSessions.any (fun kv => kv.1 = sid),
   { s with confirmedSessions := s.confirmedSessions.filter (fun kv => ¬ kv.1 = sid) })

/-- `std::map::insert`: a no-op when the key is already present. -/
def insertIfAbsent (m : List (String × List Nat)) (k : String) (v : List Nat) :
    List (String × List Nat) :=
  if m.any (fun kv => kv.1 = k) then m else m ++ [(k, v)]

/-- `SecurityManager::CheckIfPairingAllowed`: admit unless blocked; every
    admission increments the attempt counter, and the admission that reaches
    `kMaxAllowedPairingAttemts` sets the blocking deadline. -/
def checkIfPairingAllowed (s : SMState) (now : Int) : Bool × SMState :=
  if s.securityDisabled then (true, s)
  else if now < s.blockPairingUntil then (false, s)
  else
    let att := s.pairingAttempts + 1
    if kMaxAllowedPairingAttemts ≤ att then
      (true, { s with pairingAttempts := att,
                      blockPairingUntil := now + kPairingBlockingSeconds })
    else (true, { s with pairingAttempts := att })

/-- `SecurityManager::StartPairing`.  `pin` is the random 4-digit code oracle
    (`base::RandInt`), `guid` the GUID oracle (`base::GenerateGUID`; the
    generation loop's freshness guarantee is a hypothesis of the theorems).
    Every result is paired with the post-state, because the attempt counter
    mutates even on some failure paths. -/
def startPairing (c : Crypto) (s : SMState) (now : Int) (mode : PairingType)
    (crypto : CryptoType) (pin : String) (guid : String) :
    Except String (String × String) × SMState :=
  match checkIfPairingAllowed s now with
  | (false, s1) => (.error "deviceBusy", s1)
  | (true, s1) =>
    if ¬ s1.pairingModes.contains mode then (.error "invalidParams", s1)
    else
      let code := match mode with
        | .embeddedCode => s1.embeddedCode
        | .pinCode => pin
      let exchanger? : Option KeyExchanger :=
        match crypto with
        | .spake_p224 => some (c.mkSpake code)
        | .none => if s1.securityDisabled then some (unsecureExchanger code) else none
      match exchanger? with
      | none => (.error "invalidParams", s1)
      | some ex =>
        let s2 := { s1 with pendingSessions := [] }
        let commitment := ex.message
        let s3 := { s2 with
                    pendingSessions := [(guid, ex)],
                    tasks := s2.tasks ++ [(now + kSessionExpirationSeconds, guid, false)] }
        (.ok (guid, c.b64enc commitment), s3)

/-- `SecurityManager::ConfirmPairing`. -/
def confirmPairing (c : Crypto) (s : SMState) (now : Int) (sid : String)
    (clientCommitment : String) :
    Except String (String × String) × SMState :=
  match s.pendingSessions.find? (fun kv => kv.1 = sid) with
  | none => (.error "unknownSession", s)
  | some kv =>
    match c.b64dec clientCommitment with
    | none => (.error "invalidFormat", (closePendingSession s sid).2)
    | some commitment =>
      if ¬ kv.2.processOk commitment then
        (.error "commitmentMismatch", (closePendingSession s sid).2)
      else
        let key := kv.2.keyFn commitment
        let s1 := { s with
                    confirmedSessions := insertIfAbsent s.confirmedSessions sid key,
                    tasks := s.tasks ++ [(now + kSessionExpirationSeconds, sid, true)] }
        (.ok (c.b64enc c.fingerprint, c.b64enc (c.hmac key c.fingerprint)),
         (closePendingSession s1 sid).2)

/-- `SecurityManager::CancelPairing`: close both kinds of session with the
    id; a closed pending session refunds one pairing attempt. -/
def cancelPairing (s : SMState) (sid : String) : Except String Unit × SMState :=
  let rc := closeConfirmedSession s sid
  let rp := closePendingSession rc.2 sid
  let s3 := if rp.1 then { rp.2 with pairingAttempts := rp.2.pairingAttempts - 1 } else rp.2
  if rc.1 || rp.1 then (.ok (), s3) else (.error "unknownSession", s3)

/-- `SecurityManager::IsValidPairingCode`: scan the confirmed sessions for
    one whose `HMAC-SHA256(key, session_id)` equals the decoded code; a match
    resets the attempt counter and the blocking deadline. -/
def isValidPairingCode (c : Crypto) (s : SMState) (authCode : String) : Bool × SMState :=
  if s.securityDisabled then (true, s)
  else
    match c.b64dec authCode with
    | none => (false, s)
    | some decoded =>
      match s.confirmedSessions.find? (fun kv => decoded = c.hmac kv.2 (strBytes kv.1)) with
      | some _ => (true, { s with pairingAttempts := 0, blockPairingUntil := 0 })
      | none => (false, s)

/-! ## Access revocation (C1 of the spec)

`AccessRevocationManagerImpl` is not part of this slice; only its unit tests
are.  `blockEntry` is therefore modelled from the spec (§4.1 `block`), with
one exception pinned by the in-repo test `AccessRevocationManagerImplTest.
BlockExpired`: the error kind the implementation emits for an expired entry
is the misspelled string `"aleady_expired"`. -/

/-- A revocation entry: (user-id, app-id, revocation-time, expiration-time). -/
structure RevEntry where
  user : List Nat
  app : List Nat
  revocation : Int
  expiration : Int
deriving Repr, DecidableEq

/-- The revocation store: entries plus capacity. -/
structure RevState where
  entries : List RevEntry
  capacity : Nat
deriving Repr, DecidableEq

/-- The entry with the smallest expiration time (the eviction victim). -/
def minExpiration : List RevEntry → Option RevEntry
  | [] => none
  | e :: rest =>
    match minExpiration rest with
    | none => some e
    | some m => some (if e.expiration ≤ m.expiration then e else m)

/-- Modelled from the spec: raise the global wildcard floor so that the
    evicted entry's revocation remains covered (install or update a wildcard
    entry with the maxima of the revocation and expiration times). -/
def raiseWildcardFloor (entries : List RevEntry) (ev : RevEntry) : List RevEntry :=
  match entries.find? (fun x => x.user = [] ∧ x.app = []) with
  | some w =>
    entries.map (fun x =>
      if x.user = [] ∧ x.app = [] then
        { user := [], app := [],
          revocation := max w.revocation ev.revocation,
          expiration := max w.expiration ev.expiration }
      else x)
  | none =>
    entries ++ [{ user := [], app := [], revocation := ev.revocation,
                  expiration := ev.expiration }]

/-- Modelled from the spec: `block(entry, done)` of the Access Revocation
    Store (§4.1).  Fails — with the error kind the in-repo test pins — when
    the entry is already expired, leaving the store unchanged; otherwise
    prunes expired entries, evicts the soonest-expiring entry when at
    capacity (raising the wildcard floor when that eviction would lose
    information), and inserts the entry. -/
def blockEntry (s : RevState) (e : RevEntry) (now : Int) :
    Option String × RevState :=
  if e.expiration ≤ now then (some "aleady_expired", s)
  else
    let pruned := s.entries.filter (fun x => now < x.expiration)
    let afterEvict :=
      if s.capacity ≤ pruned.length then
        match minExpiration pruned with
        | some ev =>
          let rest := pruned.filter (fun x => x ≠ ev)
          if rest.any (fun x => x.user = [] ∧ x.app = [] ∧ ev.revocation ≤ x.revocation) then
            rest
          else raiseWildcardFloor rest ev
        | none => pruned
      else pruned
    (none, { s with entries := afterEvict ++ [e] })

/-! ## Registration endpoint overrides (C7 of the spec)

`DeviceRegistrationInfo::RegisterDevice` is not part of this slice; only its
unit tests are.  The admission steps 1–2 of the registration flow (§4.7) are
modelled from the spec. -/

/-- The caller-supplied registration data (empty string = not provided). -/
structure RegistrationData where
  ticket_id : String
  oauth_url : String
  service_url : String
  api_key : String
  client_id : String
  client_secret : String
  xmpp_endpoint : String
deriving Repr, DecidableEq

/-- The persisted settings relevant to registration. -/
structure RegSettings where
  cloud_id : String
  refresh_token : String
  robot_account : String
  oauth_url : String
  service_url : String
  api_key : String
  client_id : String
  client_secret : String
  xmpp_endpoint : String
  allow_endpoints_override : Bool
deriving Repr, DecidableEq

/-- Modelled from the spec: credentials are present after a completed
    registration (cloud id, refresh token, robot account). -/
def haveRegistrationCredentials (s : RegSettings) : Bool :=
  s.refresh_token ≠ "" && s.cloud_id ≠ "" && s.robot_account ≠ ""

/-- Whether the request carries any non-empty endpoint-like field. -/
def endpointOverrideRequested (rd : RegistrationData) : Bool :=
  rd.oauth_url ≠ "" || rd.service_url ≠ "" || rd.api_key ≠ "" ||
  rd.client_id ≠ "" || rd.client_secret ≠ "" || rd.xmpp_endpoint ≠ ""

/-- Merge the request with the defaults (missing fields fall back). -/
def mergeRegistration (s : RegSettings) (rd : RegistrationData) : RegSettings :=
  { s with
    oauth_url := if rd.oauth_url ≠ "" then rd.oauth_url else s.oauth_url,
    service_url := if rd.service_url ≠ "" then rd.service_url else s.service_url,
    api_key := if rd.api_key ≠ "" then rd.api_key else s.api_key,
    client_id := if rd.client_id ≠ "" then rd.client_id else s.client_id,
    client_secret := if rd.client_secret ≠ "" then rd.client_secret else s.client_secret,
    xmpp_endpoint := if rd.xmpp_endpoint ≠ "" then rd.xmpp_endpoint else s.xmpp_endpoint }

/-- Modelled from the spec: the admission part of `register_device`
    (§4.7 steps 1–2).  `already_registered` when credentials are present;
    `invalidParams` — with the settings untouched — when an endpoint override
    is requested while `allow_endpoints_override` is false; otherwise the
    flow proceeds with the merged settings. -/
def registerDeviceAdmission (s : RegSettings) (rd : RegistrationData) :
    Option String × RegSettings :=
  if haveRegistrationCredentials s then (some "already_registered", s)
  else if ¬ s.allow_endpoints_override ∧ endpointOverrideRequested rd then
    (some "invalidParams", s)
  else (none, mergeRegistration s rd)

/-! ## Derived notions used by the correctness statements -/

/-- An input entry that `LoadTraits` processes without failing against the
    registry `tr`: an object that is either new or re-defines an existing
    trait with an equal body. -/
def goodTraitEntry (tr : JDict) (kv : String × JValue) : Bool :=
  match kv.2 with
  | .dict body =>
    match dictGetDictPath tr kv.1 with
    | some existing => beqD existing body
    | none => true
  | _ => false

/-- An input entry on which `LoadTraits` fails against the registry `tr`:
    a non-object value, or a redefinition with a non-equal body. -/
def badTraitEntry (tr : JDict) (kv : String × JValue) : Bool :=
  match kv.2 with
  | .dict body =>
    match dictGetDictPath tr kv.1 with
    | some existing => ¬ beqD existing body
    | none => false
  | _ => true

/-- A prefix of good entries processes cleanly in sequence (each entry good
    against the registry evolved by the earlier ones). -/
def goodTraitSeq (tr : JDict) : JDict → Bool
  | [] => true
  | (k, v) :: rest =>
    match v with
    | .dict body =>
      match dictGetDictPath tr k with
      | some existing => beqD existing body && goodTraitSeq tr rest
      | none => goodTraitSeq (dictSetPath tr k (.dict body)) rest
    | _ => false

/-- The registry after inserting the new traits of a clean prefix. -/
def applyTraitPrefix (tr : JDict) : JDict → JDict
  | [] => tr
  | (k, v) :: rest =>
    match v with
    | .dict body =>
      match dictGetDictPath tr k with
      | some _ => applyTraitPrefix tr rest
      | none => applyTraitPrefix (dictSetPath tr k (.dict body)) rest
    | _ => applyTraitPrefix tr rest

/-- Whether a clean prefix inserts at least one new trait (the condition
    under which the trait-changed callbacks fire). -/
def anyNewTrait (tr : JDict) : JDict → Bool
  | [] => false
  | (k, v) :: rest =>
    match v with
    | .dict _ =>
      match dictGetDictPath tr k with
      | some _ => anyNewTrait tr rest
      | none => true
    | _ => false

/-- The pairing-session invariant of the spec: at most one pending session,
    and session ids unique across pending ∪ confirmed. -/
def SessionInv (s : SMState) : Prop :=
  s.pendingSessions.length ≤ 1 ∧ (pendingIds s ++ confirmedIds s).Nodup

/-- Every element of a component's `traits` list is a string (the source
    `CHECK`s this while scanning). -/
def allStrings (xs : List JValue) : Bool :=
  xs.all (fun v => match v with | .str _ => true | _ => false)

/-- Whether a `traits` list contains the given trait name as a string. -/
def containsStr (xs : List JValue) (t : String) : Bool :=
  xs.any (fun v => match v with | .str sv => sv = t | _ => false)

/-- The admission condition of the claim on `AddCommand`: the dictionary
    parses, the command's `trait.command` name has a definition carrying a
    minimal role not above the caller's role, the targeted component (the
    instance's own, or the first top-level component) exists, and its
    `traits` list contains the command's trait name. -/
def acceptSpec (s : CMState) (cmd? : Option CmdInst) (role : UserRole) : Prop :=
  ∃ ci, cmd? = some ci ∧
  ∃ d, findCommandDefinition s.traits ci.name = some d ∧
  ∃ m, minimalRoleOf d = some m ∧ m.toNat ≤ role.toNat ∧
  ∃ cp, resolveComponentPath s ci = some cp ∧
  ∃ comp, findComponentAt s.components cp = .ok comp ∧
  ∃ xs, dictGetPath comp "traits" = some (.list xs) ∧
    containsStr xs (splitAtFirst ci.name '.' true).1 = true

/-! ## Concrete fixtures (from the in-repo tests' literal inputs) -/

/-- The revocation store state the test fixture loads (the single
    unexpired entry of `AccessRevocationManagerImplTest`). -/
def revTestState : RevState :=
  { entries := [{ user := [1, 2, 3], app := [3, 4, 5],
                  revocation := 1419997999, expiration := 1419999999 }],
    capacity := 10 }

/-- The expired entry `AccessRevocationManagerImplTest.BlockExpired` blocks
    (revocation 1300000000, expiration 1400000000, clock 1412121212). -/
def revExpiredEntry : RevEntry :=
  { user := [], app := [], revocation := 1300000000, expiration := 1400000000 }

/-- Default settings with overrides disallowed and no credentials
    (the `RegisterDeviceEndpointsOverrideNotAllowed` fixture). -/
def regDefaultSettings : RegSettings :=
  { cloud_id := "", refresh_token := "", robot_account := "",
    oauth_url := "http://oauth.server.com/",
    service_url := "http://gcd.server.com/",
    api_key := "GOadRdTf9FERf0k4w6EFOof56fUJ3kFDdFL3d7f",
    client_id := "123543821385.apps.googleusercontent.com",
    client_secret := "5sdGdGlfolGlrFKfdFlgP6FG",
    xmpp_endpoint := "xmpp.server.com:1234",
    allow_endpoints_override := false }

/-- The request of `RegisterDeviceEndpointsOverrideNotAllowed`:
    a ticket plus a service-url override. -/
def regOverrideRequest : RegistrationData :=
  { ticket_id := "test_ticked_id", oauth_url := "",
    service_url := "https://test.service/", api_key := "",
    client_id := "", client_secret := "", xmpp_endpoint := "" }

/-- The trait registry of the command-dispatch scenario:
    `_foo.reboot` requires role `user`. -/
def demoTraits : JDict :=
  [("_foo", .dict
      [("commands", .dict
          [("reboot", .dict
              [("parameters", .dict [("delay", .dict [("type", .str "integer")])]),
               ("minimalRole", .str "user")])])])]

/-- A component manager holding `demoTraits` and one component `comp`
    declaring trait `_foo`. -/
def demoCM : CMState :=
  { traits := demoTraits,
    components := [("comp", .dict [("traits", .list [.str "_foo"])])],
    nextCommandId := 0, lastStateChangeId := 0, stateChangeQueues := [] }

/-- The command of the dispatch scenario, with no component specified. -/
def demoCmd : CmdInst := { name := "_foo.reboot", component := "" }

/-- A demonstration `Crypto` for the witnesses: `hmac` concatenates, base64
    is modelled by an injective tagging, the decoder rejects the string
    `"!"`. -/
def demoCrypto : Crypto :=
  { hmac := fun k d => k ++ d,
    b64enc := fun _ => "b64",
    b64dec := fun a => if a = "!" then none else some [7],
    fingerprint := [9],
    mkSpake := fun code => unsecureExchanger code }

/-- A security manager holding one pending session `sid1`. -/
def demoSM : SMState :=
  { freshSM [.embeddedCode] "1234" with
    pendingSessions := [("sid1", unsecureExchanger "1234")] }

/-- The manager after one `StartPairing` call at time 0 on a fresh manager
    (scenario: three failed attempts back-to-back). -/
def throttleS1 : SMState :=
  (startPairing demoCrypto (freshSM [.embeddedCode] "1234") 0
    .embeddedCode .spake_p224 "" "g1").2

/-- After the second `StartPairing` call. -/
def throttleS2 : SMState :=
  (startPairing demoCrypto throttleS1 0 .embeddedCode .spake_p224 "" "g2").2

/-- After the third `StartPairing` call (the one that arms the block). -/
def throttleS3 : SMState :=
  (startPairing demoCrypto throttleS2 0 .embeddedCode .spake_p224 "" "g3").2

end Weave

namespace Weave

/-! # Theorems

Shared lemmas first, then one theorem per claim (with its witness or
counterexample where required). -/

/-- `Except.map` preserves success. -/
theorem isOk_map {ε α β : Type} (e : Except ε α) (f : α → β) :
    (e.map f).isOk = e.isOk := by
  cases e <;> rfl

/-- An `Except.ok` is `isOk`. -/
theorem isOk_ok {ε α : Type} (a : α) : (Except.ok (ε := ε) a).isOk = true := rfl

/-- An `Except.error` is not `isOk`. -/
theorem isOk_error {ε α : Type} (e : ε) : (Except.error (α := α) e).isOk = false := rfl

/-- When the mutation applied at the found node cannot fail, the mutating
    traversal succeeds exactly when the read-only traversal does. -/
theorem goModify_isOk_eq_goFind (parts : List String) :
    ∀ (root : JDict) (first : Bool) (f : JDict → Except Err JDict),
    (∀ d, (f d).isOk = true) →
    (goModify root parts first f).isOk = (goFind root parts first).isOk := by
  induction parts with
  | nil =>
    intro root first f hf
    simp [goModify, goFind, hf root, isOk_ok]
  | cons p rest ih =>
    intro root first f hf
    simp only [goModify, goFind]
    cases hpe : parseElement p with
    | error e => simp
    | ok ki =>
      obtain ⟨key, idx⟩ := ki
      cases first with
      | true =>
        simp only [effectiveRoot, if_pos]
        cases hsd : stepDescend root key idx with
        | error e => simp [hsd]
        | ok cr =>
          obtain ⟨child, rebuild⟩ := cr
          simp [hsd, isOk_map, ih child false f hf]
      | false =>
        simp only [effectiveRoot, if_neg, Bool.false_eq_true, not_false_iff]
        cases hdg : dictGet root "components" with
        | none => simp [hdg]
        | some v =>
          cases v with
          | dict comps =>
            cases hsd : stepDescend comps key idx with
            | error e => simp [hdg, hsd]
            | ok cr =>
              obtain ⟨child, rebuild⟩ := cr
              simp [hdg, hsd, isOk_map, ih child false f hf]
          | null => simp [hdg]
          | bool b => simp [hdg]
          | int n => simp [hdg]
          | str s => simp [hdg]
          | list xs => simp [hdg]

/-- The mutation bodies of `AddComponentArrayItem` and of
    `SetStateProperties` cannot fail, and `modifyGraftNode` built from a
    total body is total at the component it mutates. -/
theorem addComponentArrayItemBody_isOk (name : String) (traits : List String)
    (root : JDict) : (addComponentArrayItemBody name traits root).isOk = true := rfl

/-- `applyStateDiff` cannot fail. -/
theorem applyStateDiff_isOk (diff : JDict) (comp : JDict) :
    (applyStateDiff diff comp).isOk = true := rfl

/-- `modifyGraftNode` with a total body succeeds exactly when the parent
    component resolves. -/
theorem modifyGraftNode_isOk (root : JDict) (path : String)
    (f : JDict → Except Err JDict) (hf : ∀ d, (f d).isOk = true) :
    (modifyGraftNode root path f).isOk = (findComponentAt root path).isOk := by
  unfold modifyGraftNode modifyComponentAt findComponentAt
  apply goModify_isOk_eq_goFind
  intro d
  cases hfd : f (match dictGet d "components" with
    | some (.dict dd) => dd
    | _ => []) with
  | error e =>
    have := hf (match dictGet d "components" with
      | some (.dict dd) => dd
      | _ => [])
    rw [hfd] at this
    exact absurd this (by simp [Except.isOk, Except.toBool])
  | ok comps' => simp only [hfd]; rfl

/-- On an all-strings traits list the support scan cannot abort and decides
    exactly membership of the trait name. -/
theorem traitSupported_allStrings (xs : List JValue) (t : String)
    (h : allStrings xs = true) :
    traitSupported xs t = .ok (containsStr xs t) := by
  induction xs with
  | nil => rfl
  | cons v rest ih =>
    simp only [allStrings, List.all_cons, Bool.and_eq_true] at h
    cases v with
    | str sv =>
      by_cases hsv : sv = t
      · subst hsv
        simp [traitSupported, containsStr]
      · simp only [traitSupported, if_neg hsv, containsStr, List.any_cons]
        rw [show decide (sv = t) = false by simp [hsv], Bool.false_or]
        exact ih h.2
    | null => exact absurd h.1 (by simp)
    | bool b => exact absurd h.1 (by simp)
    | int n => exact absurd h.1 (by simp)
    | list ys => exact absurd h.1 (by simp)
    | dict kvs => exact absurd h.1 (by simp)

/-- `AddCommand` accepts exactly under the admission condition `acceptSpec`
    (given well-formed component trait lists, which the source `CHECK`s). -/
theorem addCommand_isOk_iff (s : CMState) (cmd? : Option CmdInst) (role : UserRole)
    (hstr : ∀ ci cp comp xs, cmd? = some ci → resolveComponentPath s ci = some cp →
      findComponentAt s.components cp = .ok comp →
      dictGetPath comp "traits" = some (.list xs) → allStrings xs = true) :
    (addCommand s cmd? role).isOk = true ↔ acceptSpec s cmd? role := by
  cases cmd? with
  | none => simp [addCommand, acceptSpec, Except.isOk, Except.toBool]
  | some ci =>
    unfold addCommand getMinimalRole
    dsimp only
    cases hdef : findCommandDefinition s.traits ci.name with
    | none =>
      dsimp only
      refine iff_of_false (by simp [Except.isOk, Except.toBool]) ?_
      rintro ⟨ci', hci, d', hd, -⟩
      rw [Option.some.injEq] at hci
      subst hci
      rw [hdef] at hd
      exact absurd hd (by simp)
    | some d =>
      dsimp only
      cases hrole : minimalRoleOf d with
      | none =>
        dsimp only
        refine iff_of_false (by simp [Except.isOk, Except.toBool]) ?_
        rintro ⟨ci', hci, d', hd, m', hm, -⟩
        rw [Option.some.injEq] at hci
        subst hci
        rw [hdef, Option.some.injEq] at hd
        subst hd
        rw [hrole] at hm
        exact absurd hm (by simp)
      | some m =>
        dsimp only
        by_cases hlt : role.toNat < m.toNat
        · rw [if_pos hlt]
          refine iff_of_false (by simp [Except.isOk, Except.toBool]) ?_
          rintro ⟨ci', hci, d', hd, m', hm, hle, -⟩
          rw [Option.some.injEq] at hci
          subst hci
          rw [hdef, Option.some.injEq] at hd
          subst hd
          rw [hrole, Option.some.injEq] at hm
          subst hm
          omega
        · rw [if_neg hlt]
          cases hres : resolveComponentPath s ci with
          | none =>
            dsimp only
            refine iff_of_false (by simp [Except.isOk, Except.toBool]) ?_
            rintro ⟨ci', hci, d', hd, m', hm, hle, cp, hcp, -⟩
            rw [Option.some.injEq] at hci
            subst hci
            rw [hres] at hcp
            exact absurd hcp (by simp)
          | some cp =>
            dsimp only
            cases hfind : findComponentAt s.components cp with
            | error e =>
              dsimp only
              refine iff_of_false (by simp [Except.isOk, Except.toBool]) ?_
              rintro ⟨ci', hci, d', hd, m', hm, hle, cp', hcp, comp, hcomp, -⟩
              rw [Option.some.injEq] at hci
              subst hci
              rw [hres, Option.some.injEq] at hcp
              subst hcp
              rw [hfind] at hcomp
              exact absurd hcomp (by simp)
            | ok comp =>
              dsimp only
              have rhsFalse :
                  (∀ xs : List JValue,
                    ¬ dictGetPath comp "traits" = some (.list xs)) →
                  ¬ acceptSpec s (some ci) role := by
                intro hno
                rintro ⟨ci', hci, d', hd, m', hm, hle, cp', hcp, comp', hcomp, xs, hxs, -⟩
                rw [Option.some.injEq] at hci
                subst hci
                rw [hres, Option.some.injEq] at hcp
                subst hcp
                rw [hfind, Except.ok.injEq] at hcomp
                subst hcomp
                exact hno xs hxs
              cases hts : dictGetPath comp "traits" with
              | none =>
                dsimp only
                exact iff_of_false (by simp [Except.isOk, Except.toBool])
                  (rhsFalse (fun xs hxs => by
                    rw [hts] at hxs; exact absurd hxs (by simp)))
              | some v =>
                cases v with
                | list xs =>
                  have hall := hstr ci cp comp xs rfl hres hfind hts
                  dsimp only
                  rw [traitSupported_allStrings xs _ hall]
                  by_cases hmem : containsStr xs (splitAtFirst ci.name '.' true).1 = true
                  · rw [hmem]
                    refine iff_of_true (by simp [Except.isOk, Except.toBool]) ?_
                    exact ⟨ci, rfl, d, hdef, m, hrole, by omega, cp, hres, comp, hfind,
                      xs, hts, hmem⟩
                  · replace hmem := Bool.eq_false_iff.mpr hmem
                    rw [hmem]
                    refine iff_of_false (by simp [Except.isOk, Except.toBool]) ?_
                    rintro ⟨ci', hci, d', hd, m', hm, hle, cp', hcp, comp', hcomp, xs', hxs, hmem'⟩
                    rw [Option.some.injEq] at hci
                    subst hci
                    rw [hres, Option.some.injEq] at hcp
                    subst hcp
                    rw [hfind, Except.ok.injEq] at hcomp
                    subst hcomp
                    rw [hts, Option.some.injEq, JValue.list.injEq] at hxs
                    subst hxs
                    rw [hmem] at hmem'
                    exact absurd hmem' (by simp)
                | null =>
                  exact iff_of_false (by simp [Except.isOk, Except.toBool])
                    (rhsFalse (fun xs hxs => by
                      rw [hts] at hxs; exact absurd hxs (by simp)))
                | bool b =>
                  exact iff_of_false (by simp [Except.isOk, Except.toBool])
                    (rhsFalse (fun xs hxs => by
                      rw [hts] at hxs; exact absurd hxs (by simp)))
                | int n =>
                  exact iff_of_false (by simp [Except.isOk, Except.toBool])
                    (rhsFalse (fun xs hxs => by
                      rw [hts] at hxs; exact absurd hxs (by simp)))
                | str sv =>
                  exact iff_of_false (by simp [Except.isOk, Except.toBool])
                    (rhsFalse (fun xs hxs => by
                      rw [hts] at hxs; exact absurd hxs (by simp)))
                | dict kvs =>
                  exact iff_of_false (by simp [Except.isOk, Except.toBool])
                    (rhsFalse (fun xs hxs => by
                      rw [hts] at hxs; exact absurd hxs (by simp)))

/-- An accepted command is assigned the next monotonically increasing
    integer id rendered in decimal, and the manager advances its counter. -/
theorem addCommand_ok_eq (s : CMState) (cmd? : Option CmdInst) (role : UserRole)
    (h : (addCommand s cmd? role).isOk = true) :
    addCommand s cmd? role =
      .ok (toString (s.nextCommandId + 1),
           { s with nextCommandId := s.nextCommandId + 1 }) := by
  cases cmd? with
  | none => exact absurd h (by simp [addCommand, Except.isOk, Except.toBool])
  | some ci =>
    unfold addCommand getMinimalRole at h ⊢
    dsimp only at h ⊢
    cases hdef : findCommandDefinition s.traits ci.name with
    | none =>
      rw [hdef] at h
      exact absurd h (by simp [Except.isOk, Except.toBool])
    | some d =>
      rw [hdef] at h
      dsimp only at h ⊢
      cases hrole : minimalRoleOf d with
      | none =>
        rw [hrole] at h
        exact absurd h (by simp [Except.isOk, Except.toBool])
      | some m =>
        rw [hrole] at h
        dsimp only at h ⊢
        by_cases hlt : role.toNat < m.toNat
        · rw [if_pos hlt] at h
          exact absurd h (by simp [Except.isOk, Except.toBool])
        · rw [if_neg hlt] at h ⊢
          cases hres : resolveComponentPath s ci with
          | none =>
            rw [hres] at h
            exact absurd h (by simp [Except.isOk, Except.toBool])
          | some cp =>
            rw [hres] at h
            dsimp only at h ⊢
            cases hfind : findComponentAt s.components cp with
            | error e =>
              rw [hfind] at h
              exact absurd h (by simp [Except.isOk, Except.toBool])
            | ok comp =>
              rw [hfind] at h
              dsimp only at h ⊢
              cases hts : dictGetPath comp "traits" with
              | none =>
                rw [hts] at h
                dsimp only at h
                exact absurd h (by simp [Except.isOk, Except.toBool])
              | some v =>
                rw [hts] at h
                cases v with
                | list xs =>
                  dsimp only at h ⊢
                  cases hsup : traitSupported xs (splitAtFirst ci.name '.' true).1 with
                  | error e =>
                    rw [hsup] at h
                    exact absurd h (by simp [Except.isOk, Except.toBool])
                  | ok b =>
                    rw [hsup] at h
                    cases b with
                    | false =>
                      dsimp only at h
                      exact absurd h (by simp [Except.isOk, Except.toBool])
                    | true => dsimp only
                | null =>
                  dsimp only at h
                  exact absurd h (by simp [Except.isOk, Except.toBool])
                | bool b =>
                  dsimp only at h
                  exact absurd h (by simp [Except.isOk, Except.toBool])
                | int n =>
                  dsimp only at h
                  exact absurd h (by simp [Except.isOk, Except.toBool])
                | str sv =>
                  dsimp only at h
                  exact absurd h (by simp [Except.isOk, Except.toBool])
                | dict kvs =>
                  dsimp only at h
                  exact absurd h (by simp [Except.isOk, Except.toBool])

/-- **C1.**  `AddCommand` admission: the command is accepted iff it parses,
    its `trait.command` name has a definition (else `invalidCommandName`)
    whose `minimalRole` does not exceed the caller's role (else
    `access_denied`), the targeted component — the instance's own, or the
    first declared top-level component when unspecified — exists (with no
    components defined, `component_not_found`), and the component's traits
    list contains the command's trait name (else `trait_not_supported`);
    on acceptance the command receives the next monotonically increasing
    integer id in decimal, `"1"` on a fresh manager. -/
theorem addCommand_admission (s : CMState) (cmd? : Option CmdInst) (role : UserRole)
    (hstr : ∀ ci cp comp xs, cmd? = some ci → resolveComponentPath s ci = some cp →
      findComponentAt s.components cp = .ok comp →
      dictGetPath comp "traits" = some (.list xs) → allStrings xs = true) :
    ((addCommand s cmd? role).isOk = true ↔ acceptSpec s cmd? role) ∧
    ((addCommand s cmd? role).isOk = true →
      addCommand s cmd? role =
        .ok (toString (s.nextCommandId + 1),
             { s with nextCommandId := s.nextCommandId + 1 })) ∧
    (∀ ci, cmd? = some ci → findCommandDefinition s.traits ci.name = none →
      addCommand s cmd? role = .error (.kind "invalidCommandName")) ∧
    (∀ ci d m, cmd? = some ci → findCommandDefinition s.traits ci.name = some d →
      minimalRoleOf d = some m → role.toNat < m.toNat →
      addCommand s cmd? role = .error (.kind "access_denied")) ∧
    (∀ ci d m, cmd? = some ci → findCommandDefinition s.traits ci.name = some d →
      minimalRoleOf d = some m → m.toNat ≤ role.toNat →
      resolveComponentPath s ci = none →
      addCommand s cmd? role = .error (.kind "component_not_found")) ∧
    (∀ ci d m cp comp, cmd? = some ci →
      findCommandDefinition s.traits ci.name = some d →
      minimalRoleOf d = some m → m.toNat ≤ role.toNat →
      resolveComponentPath s ci = some cp →
      findComponentAt s.components cp = .ok comp →
      (∀ xs, dictGetPath comp "traits" = some (.list xs) →
        containsStr xs (splitAtFirst ci.name '.' true).1 = false) →
      addCommand s cmd? role = .error (.kind "trait_not_supported")) := by
  refine ⟨addCommand_isOk_iff s cmd? role hstr, addCommand_ok_eq s cmd? role,
    ?_, ?_, ?_, ?_⟩
  · intro ci hci hdefn
    rw [hci]
    unfold addCommand getMinimalRole
    dsimp only
    rw [hdefn]
  · intro ci d m hci hdefn hrole hlt
    rw [hci]
    unfold addCommand getMinimalRole
    dsimp only
    rw [hdefn]
    dsimp only
    rw [hrole]
    dsimp only
    rw [if_pos hlt]
  · intro ci d m hci hdefn hrole hle hres
    rw [hci]
    unfold addCommand getMinimalRole
    dsimp only
    rw [hdefn]
    dsimp only
    rw [hrole]
    dsimp only
    rw [if_neg (by omega), hres]
  · intro ci d m cp comp hci hdefn hrole hle hres hfind hno
    rw [hci]
    unfold addCommand getMinimalRole
    dsimp only
    rw [hdefn]
    dsimp only
    rw [hrole]
    dsimp only
    rw [if_neg (by omega), hres]
    dsimp only
    rw [hfind]
    dsimp only
    cases hts : dictGetPath comp "traits" with
    | none => rfl
    | some v =>
      cases v with
      | list xs =>
        dsimp only
        have hall := hstr ci cp comp xs hci hres hfind hts
        rw [traitSupported_allStrings xs _ hall, hno xs hts]
      | null => rfl
      | bool b => rfl
      | int n => rfl
      | str sv => rfl
      | dict kvs => rfl

/-- Witness for C1: the command-dispatch scenario — `_foo.reboot`
    (minimal role `user`) at role `user` on component `comp` declaring
    `_foo` is accepted with id `"1"`. -/
theorem addCommand_admission_witness :
    (addCommand demoCM (some demoCmd) .user).isOk = true ∧
    addCommand demoCM (some demoCmd) .user =
      .ok ("1", { demoCM with nextCommandId := 1 }) := by
  have hstr : ∀ ci cp comp xs, some demoCmd = some ci →
      resolveComponentPath demoCM ci = some cp →
      findComponentAt demoCM.components cp = .ok comp →
      dictGetPath comp "traits" = some (.list xs) → allStrings xs = true := by
    intro ci cp comp xs hci hcp hfind hts
    obtain rfl : demoCmd = ci := by injection hci
    rw [show resolveComponentPath demoCM demoCmd = some "comp" from rfl,
      Option.some.injEq] at hcp
    subst hcp
    rw [show findComponentAt demoCM.components "comp" =
      .ok [("traits", JValue.list [.str "_foo"])] from rfl,
      Except.ok.injEq] at hfind
    subst hfind
    rw [show dictGetPath [("traits", JValue.list [.str "_foo"])] "traits" =
      some (JValue.list [.str "_foo"]) from rfl, Option.some.injEq,
      JValue.list.injEq] at hts
    subst hts
    rfl
  have h := addCommand_admission demoCM (some demoCmd) .user hstr
  have hok : (addCommand demoCM (some demoCmd) .user).isOk = true := by
    refine h.1.mpr ⟨demoCmd, rfl, ?_⟩
    refine ⟨[("parameters", .dict [("delay", .dict [("type", .str "integer")])]),
      ("minimalRole", .str "user")], rfl, .user, rfl, by decide, "comp", rfl,
      [("traits", JValue.list [.str "_foo"])], rfl,
      [JValue.str "_foo"], rfl, by decide⟩
  exact ⟨hok, h.2.1 hok⟩

/-- **C6.**  With `allow_endpoints_override = false`, a registration request
    carrying any non-empty endpoint-like field fails with `invalidParams`,
    and the settings are not mutated by the failed call. -/
theorem registerDevice_override_not_allowed
    (s : RegSettings) (rd : RegistrationData)
    (hcred : haveRegistrationCredentials s = false)
    (hallow : s.allow_endpoints_override = false)
    (hfield : endpointOverrideRequested rd = true) :
    registerDeviceAdmission s rd = (some "invalidParams", s) := by
  unfold registerDeviceAdmission
  simp [hcred, hallow, hfield]

/-- Witness for C6: the literal inputs of the in-repo test
    `RegisterDeviceEndpointsOverrideNotAllowed`. -/
theorem registerDevice_override_not_allowed_witness :
    haveRegistrationCredentials regDefaultSettings = false ∧
    regDefaultSettings.allow_endpoints_override = false ∧
    endpointOverrideRequested regOverrideRequest = true ∧
    registerDeviceAdmission regDefaultSettings regOverrideRequest =
      (some "invalidParams", regDefaultSettings) :=
  ⟨by decide, by decide, by decide,
   registerDevice_override_not_allowed regDefaultSettings regOverrideRequest
     (by decide) (by decide) (by decide)⟩

/-- Counterexample for C9: on a fresh manager with no traits loaded,
    `AddComponentArrayItem` with the undefined trait `_foo` *succeeds*
    (the claim demands rejection with `invalidPropValue`), although
    `AddComponent` on the same inputs does reject. -/
theorem addComponentArrayItem_no_validation_cex :
    (addComponentArrayItem cmFresh "" "comp" ["_foo"]).isOk = true ∧
    findTraitDefinition cmFresh.traits "_foo" = none ∧
    addComponent cmFresh "" "comp" ["_foo"] = .error (.kind "invalidPropValue") :=
  ⟨rfl, rfl, rfl⟩

/-- **C9** (amended).  `AddComponentArrayItem` performs no validation of the
    traits list (or of the name): its outcome's success is independent of the
    traits supplied, and for a non-empty parent path it succeeds exactly when
    the parent component resolves; at the root it always succeeds, appending
    `{"traits": [...]}` to the array-valued child `name` (a missing or
    non-list child is replaced by a fresh array). -/
theorem addComponentArrayItem_spec (s : CMState) (path name : String)
    (t₁ t₂ : List String) :
    ((addComponentArrayItem s path name t₁).isOk =
      (addComponentArrayItem s path name t₂).isOk) ∧
    (path ≠ "" →
      (addComponentArrayItem s path name t₁).isOk =
        (findComponentAt s.components path).isOk) ∧
    (addComponentArrayItem s "" name t₁ =
      .ok { s with components := dictSet s.components name (.list
        ((match dictGet s.components name with
          | some (.list xs) => xs
          | _ => []) ++ [.dict [("traits", .list (t₁.map .str))]])) }) := by
  have hbase : ∀ t : List String,
      (addComponentArrayItem s "" name t).isOk = true := by
    intro t
    simp [addComponentArrayItem, addComponentArrayItemBody, isOk_ok]
  have hgraft : ∀ t : List String, path ≠ "" →
      (addComponentArrayItem s path name t).isOk =
        (findComponentAt s.components path).isOk := by
    intro t hp
    unfold addComponentArrayItem
    rw [if_neg hp]
    have h := modifyGraftNode_isOk s.components path
      (addComponentArrayItemBody name t) (addComponentArrayItemBody_isOk name t)
    cases hm : modifyGraftNode s.components path (addComponentArrayItemBody name t) with
    | error e => rw [hm] at h; simpa using h
    | ok comps => rw [hm] at h; simpa using h
  refine ⟨?_, hgraft t₁, ?_⟩
  · by_cases hp : path = ""
    · subst hp; rw [hbase t₁, hbase t₂]
    · rw [hgraft t₁ hp, hgraft t₂ hp]
  · simp [addComponentArrayItem, addComponentArrayItemBody]

/-- Witness for C9: the amended theorem applied at a concrete parent path,
    discharging its hypothesis. -/
theorem addComponentArrayItem_spec_witness :
    (addComponentArrayItem demoCM "comp" "sub" ["_foo"]).isOk =
      (findComponentAt demoCM.components "comp").isOk :=
  (addComponentArrayItem_spec demoCM "comp" "sub" ["_foo"] []).2.1 (by decide)

/-- `SetStateProperties` succeeds exactly when the component path resolves
    (its mutation body never fails). -/
theorem setStateProperties_isOk (s : CMState) (path : String) (diff : JDict)
    (now : Int) :
    (setStateProperties s path diff now).isOk =
      (findComponentAt s.components path).isOk := by
  unfold setStateProperties
  have h : (modifyComponentAt s.components path (applyStateDiff diff)).isOk =
      (findComponentAt s.components path).isOk := by
    unfold modifyComponentAt findComponentAt
    exact goModify_isOk_eq_goFind _ _ _ _ (applyStateDiff_isOk diff)
  cases hm : modifyComponentAt s.components path (applyStateDiff diff) with
  | error e => rw [hm] at h; simpa using h
  | ok comps => rw [hm] at h; simpa using h

/-- Counterexample for C8: the name `a.b.c` does not consist of exactly two
    non-empty dotted parts, yet `SetStateProperty` accepts it (the source
    splits only at the *first* dot). -/
theorem setStateProperty_dotted_name_cex :
    (setStateProperty demoCM "comp" "a.b.c" (.int 1) 5).isOk = true ∧
    ((splitParts "a.b.c" '.' true false).filter (fun p => p ≠ "")).length ≠ 2 :=
  ⟨rfl, by decide⟩

/-- **C8** (amended).  `SetStateProperty` rejects with `propertyMissing`
    exactly when splitting the name at its *first* dot leaves an empty
    (trimmed) package or property part; otherwise it is `SetStateProperties`
    of the diff built by path-expanding the dotted name (so names with more
    dots are accepted and create deeper nesting), and it succeeds exactly
    when additionally the component path resolves. -/
theorem setStateProperty_spec (s : CMState) (path name : String) (v : JValue)
    (now : Int) :
    ((splitAtFirst name '.' true).1 = "" ∨ (splitAtFirst name '.' true).2 = "" →
      setStateProperty s path name v now = .error (.kind "propertyMissing")) ∧
    ((splitAtFirst name '.' true).1 ≠ "" → (splitAtFirst name '.' true).2 ≠ "" →
      setStateProperty s path name v now =
        setStateProperties s path (dictSetPath [] name v) now) ∧
    ((setStateProperty s path name v now).isOk = true ↔
      ((splitAtFirst name '.' true).1 ≠ "" ∧ (splitAtFirst name '.' true).2 ≠ "" ∧
        (findComponentAt s.components path).isOk = true)) := by
  refine ⟨?_, ?_, ?_⟩
  · intro h
    unfold setStateProperty
    rcases h with h | h
    · rw [if_pos h]
    · by_cases h1 : (splitAtFirst name '.' true).1 = ""
      · rw [if_pos h1]
      · rw [if_neg h1, if_pos h]
  · intro h1 h2
    unfold setStateProperty
    rw [if_neg h1, if_neg h2]
  · constructor
    · intro h
      by_cases h1 : (splitAtFirst name '.' true).1 = ""
      · unfold setStateProperty at h; rw [if_pos h1] at h; exact absurd h (by simp [Except.isOk, Except.toBool])
      · by_cases h2 : (splitAtFirst name '.' true).2 = ""
        · unfold setStateProperty at h; rw [if_neg h1, if_pos h2] at h
          exact absurd h (by simp [Except.isOk, Except.toBool])
        · refine ⟨h1, h2, ?_⟩
          unfold setStateProperty at h
          rw [if_neg h1, if_neg h2] at h
          rw [← setStateProperties_isOk s path (dictSetPath [] name v) now]
          exact h
    · rintro ⟨h1, h2, h3⟩
      unfold setStateProperty
      rw [if_neg h1, if_neg h2, setStateProperties_isOk]
      exact h3

/-- Witness for C8: the amended theorem's success characterization applied
    at a two-part name on a resolvable component. -/
theorem setStateProperty_spec_witness :
    (setStateProperty demoCM "comp" "t.p" (.int 2) 7).isOk = true :=
  (setStateProperty_spec demoCM "comp" "t.p" (.int 2) 7).2.2.mpr
    ⟨by decide, by decide, by rfl⟩

/-- The `LoadTraits` loop, stopped by the first offending entry: the clean
    prefix is retained, the `modified` flag accumulates the prefix's
    insertions, and the entries after the offending one do not influence the
    result. -/
theorem loadTraitsAux_stops (kv : String × JValue) (post : JDict) :
    ∀ (pre : JDict) (tr : JDict) (modified : Bool),
    goodTraitSeq tr pre = true →
    badTraitEntry (applyTraitPrefix tr pre) kv = true →
    loadTraitsAux tr modified (pre ++ kv :: post) =
      (false, applyTraitPrefix tr pre, modified || anyNewTrait tr pre) := by
  intro pre
  induction pre with
  | nil =>
    intro tr modified _ hbad
    obtain ⟨k, v⟩ := kv
    simp only [applyTraitPrefix] at hbad ⊢
    simp only [List.nil_append, loadTraitsAux, anyNewTrait, Bool.or_false]
    unfold badTraitEntry at hbad
    cases v with
    | dict body =>
      simp only at hbad ⊢
      cases hg : dictGetDictPath tr k with
      | some existing =>
        rw [hg] at hbad
        simp only [decide_eq_true_eq] at hbad
        simp [hg, hbad]
      | none => rw [hg] at hbad; exact absurd hbad (by simp)
    | null => rfl
    | bool b => rfl
    | int n => rfl
    | str sv => rfl
    | list xs => rfl
  | cons hd pre' ih =>
    intro tr modified hgood hbad
    obtain ⟨k, v⟩ := hd
    unfold goodTraitSeq at hgood
    cases v with
    | dict body =>
      simp only at hgood
      cases hg : dictGetDictPath tr k with
      | some existing =>
        rw [hg] at hgood
        simp only [Bool.and_eq_true] at hgood
        have hpre : applyTraitPrefix tr ((k, .dict body) :: pre') =
            applyTraitPrefix tr pre' := by
          simp [applyTraitPrefix, hg]
        rw [hpre] at hbad
        simp only [List.cons_append, loadTraitsAux]
        simp only [hg, if_pos hgood.1, List.append_eq]
        rw [ih tr modified hgood.2 hbad, hpre]
        have hnew : anyNewTrait tr ((k, .dict body) :: pre') =
            anyNewTrait tr pre' := by
          simp [anyNewTrait, hg]
        rw [hnew]
      | none =>
        rw [hg] at hgood
        replace hgood : goodTraitSeq (dictSetPath tr k (JValue.dict body)) pre' = true := by
          simpa using hgood
        have hpre : applyTraitPrefix tr ((k, .dict body) :: pre') =
            applyTraitPrefix (dictSetPath tr k (.dict body)) pre' := by
          simp [applyTraitPrefix, hg]
        rw [hpre] at hbad
        simp only [List.cons_append, loadTraitsAux]
        simp only [hg, List.append_eq]
        rw [ih (dictSetPath tr k (.dict body)) true hgood hbad, hpre]
        have hnew : anyNewTrait tr ((k, .dict body) :: pre') = true := by
          simp [anyNewTrait, hg]
        rw [hnew]
        simp
    | null => exact absurd hgood (by simp)
    | bool b => exact absurd hgood (by simp)
    | int n => exact absurd hgood (by simp)
    | str sv => exact absurd hgood (by simp)
    | list xs => exact absurd hgood (by simp)

/-- **C10.**  `LoadTraits` is not atomic on failure: on an input whose first
    offending entry (non-object value or conflicting redefinition) follows a
    clean prefix, the call returns failure, every new trait of the prefix
    remains inserted, the trait-changed callbacks fire exactly when the
    prefix inserted something, and the entries after the offending one are
    not processed (the result does not depend on them). -/
theorem loadTraits_not_atomic (tr pre : JDict) (kv : String × JValue)
    (post : JDict)
    (hgood : goodTraitSeq tr pre = true)
    (hbad : badTraitEntry (applyTraitPrefix tr pre) kv = true) :
    loadTraits tr (pre ++ kv :: post) =
      (false, applyTraitPrefix tr pre, anyNewTrait tr pre) := by
  unfold loadTraits
  rw [loadTraitsAux_stops kv post pre tr false hgood hbad]
  simp

/-- Witness for C10: a clean new trait `_a`, then an offending non-object
    entry `_b`, then an unreached entry `_c`: the call fails, `_a` stays
    inserted, the callbacks fire, `_c` is not inserted. -/
theorem loadTraits_not_atomic_witness :
    goodTraitSeq [] [("_a", .dict [])] = true ∧
    badTraitEntry (applyTraitPrefix [] [("_a", .dict [])]) ("_b", .str "x") = true ∧
    loadTraits [] [("_a", .dict []), ("_b", .str "x"), ("_c", .dict [])] =
      (false, [("_a", .dict [])], true) := by
  refine ⟨by decide, by decide, ?_⟩
  have h := loadTraits_not_atomic [] [("_a", .dict [])] ("_b", .str "x")
    [("_c", .dict [])] (by decide) (by decide)
  simpa using h

/-- **C7.**  Blocking an already-expired revocation entry fails and leaves
    the store unchanged — but the error kind the implementation emits (as
    pinned by its own test `AccessRevocationManagerImplTest.BlockExpired`) is
    the misspelled string `"aleady_expired"`, not the `"already_expired"` of
    the claim's taxonomy.  Evaluated at the test's literal failing input. -/
theorem blockEntry_expired_misspelled_kind :
    blockEntry revTestState revExpiredEntry 1412121212 =
      (some "aleady_expired", revTestState) ∧
    "aleady_expired" ≠ "already_expired" :=
  ⟨by decide, by decide⟩

/-- A successful `SetStateProperties` advances `last_state_change_id_` by
    exactly one. -/
theorem setStateProperties_ok_id (s : CMState) (path : String) (diff : JDict)
    (now : Int) (s' : CMState)
    (h : setStateProperties s path diff now = .ok s') :
    s'.lastStateChangeId = s.lastStateChangeId + 1 := by
  unfold setStateProperties at h
  cases hm : modifyComponentAt s.components path (applyStateDiff diff) with
  | error e => rw [hm] at h; exact absurd h (by simp)
  | ok comps =>
    rw [hm] at h
    simp only [Except.ok.injEq] at h
    rw [← h]

/-- One step of a call sequence never decreases the update id. -/
theorem applySetsStep_le (acc : CMState × Bool) (op : String × JDict × Int) :
    acc.1.lastStateChangeId ≤ (applySetsStep acc op).1.lastStateChangeId := by
  unfold applySetsStep
  cases hset : setStateProperties acc.1 op.1 op.2.1 op.2.2 with
  | ok s' =>
    dsimp only
    rw [setStateProperties_ok_id acc.1 op.1 op.2.1 op.2.2 s' hset]
    exact Nat.le_succ _
  | error e => dsimp only; exact le_refl _

/-- Over a call sequence the update id is monotone, and it strictly
    increases whenever the success flag was newly set. -/
theorem applySets_fold_mono (ops : List (String × JDict × Int)) :
    ∀ acc : CMState × Bool,
    acc.1.lastStateChangeId ≤ (ops.foldl applySetsStep acc).1.lastStateChangeId ∧
    ((ops.foldl applySetsStep acc).2 = true →
      acc.2 = true ∨
      acc.1.lastStateChangeId < (ops.foldl applySetsStep acc).1.lastStateChangeId) := by
  induction ops with
  | nil => intro acc; exact ⟨le_refl _, fun h => Or.inl h⟩
  | cons op rest ih =>
    intro acc
    rw [List.foldl_cons]
    obtain ⟨ihle, ihflag⟩ := ih (applySetsStep acc op)
    refine ⟨le_trans (applySetsStep_le acc op) ihle, ?_⟩
    intro hflag
    rcases ihflag hflag with h | h
    · unfold applySetsStep at h
      cases hset : setStateProperties acc.1 op.1 op.2.1 op.2.2 with
      | ok s' =>
        right
        have hid := setStateProperties_ok_id acc.1 op.1 op.2.1 op.2.2 s' hset
        have hstep : (applySetsStep acc op).1 = s' := by
          unfold applySetsStep; rw [hset]
        calc acc.1.lastStateChangeId < acc.1.lastStateChangeId + 1 := Nat.lt_succ_self _
          _ = s'.lastStateChangeId := hid.symm
          _ = (applySetsStep acc op).1.lastStateChangeId := by rw [hstep]
          _ ≤ _ := ihle
      | error e =>
        rw [hset] at h
        exact Or.inl h
    · exact Or.inr (lt_of_le_of_lt (applySetsStep_le acc op) h)

/-- **C5.**  The state journal: draining returns the current update id
    together with every recorded (timestamp, component, diff) entry of every
    per-component journal, sorted in non-decreasing timestamp order, and
    leaves every journal empty; each successful `SetStateProperties` call
    advances the update id by exactly one, so across two successive drains
    separated by at least one recorded diff the returned update id strictly
    increases. -/
theorem stateJournal_spec (s : CMState) (path : String) (diff : JDict)
    (now : Int) (ops : List (String × JDict × Int)) :
    List.Sorted tsLE (getAndClearRecordedStateChanges s).1.stateChanges ∧
    ((getAndClearRecordedStateChanges s).1.stateChanges).Perm
      (allJournalEntries s) ∧
    (getAndClearRecordedStateChanges s).2.stateChangeQueues = [] ∧
    (getAndClearRecordedStateChanges s).1.updateId = s.lastStateChangeId ∧
    (∀ s', setStateProperties s path diff now = .ok s' →
      s'.lastStateChangeId = s.lastStateChangeId + 1) ∧
    ((applySets (getAndClearRecordedStateChanges s).2 ops).2 = true →
      (getAndClearRecordedStateChanges
          (applySets (getAndClearRecordedStateChanges s).2 ops).1).1.updateId >
        (getAndClearRecordedStateChanges s).1.updateId) := by
  refine ⟨List.sorted_insertionSort tsLE _, List.perm_insertionSort tsLE _,
    rfl, rfl, setStateProperties_ok_id s path diff now, ?_⟩
  intro hflag
  obtain ⟨_, hstrict⟩ :=
    applySets_fold_mono ops ((getAndClearRecordedStateChanges s).2, false)
  rcases hstrict hflag with h | h
  · exact absurd h (by simp)
  · exact h

/-- Witness for C5: draining, then recording one concrete diff, then
    draining again strictly increases the update id (0 to 1). -/
theorem stateJournal_spec_witness :
    (getAndClearRecordedStateChanges
        (applySets (getAndClearRecordedStateChanges demoCM).2
          [("comp", [("a", JValue.int 1)], 3)]).1).1.updateId >
      (getAndClearRecordedStateChanges demoCM).1.updateId :=
  (stateJournal_spec demoCM "comp" [] 0
    [("comp", [("a", JValue.int 1)], 3)]).2.2.2.2.2 (by rfl)

/-- **C3.**  `ConfirmPairing`: an unknown session id fails with
    `unknownSession` leaving the state (in particular both session sets)
    unchanged; a commitment that is not valid base64 closes the pending
    session and fails with `invalidFormat`; a commitment the key exchanger
    rejects closes the pending session and fails with `commitmentMismatch`;
    on success the call returns the base64 certificate fingerprint and
    base64(HMAC-SHA256(shared-key, fingerprint)), the session moves from the
    pending to the confirmed set, and a new expiry task is scheduled. -/
theorem confirmPairing_spec (c : Crypto) (s : SMState) (now : Int)
    (sid comm : String) :
    (s.pendingSessions.find? (fun kv => kv.1 = sid) = none →
      confirmPairing c s now sid comm = (.error "unknownSession", s)) ∧
    (∀ kv, s.pendingSessions.find? (fun kv => kv.1 = sid) = some kv →
      c.b64dec comm = none →
      confirmPairing c s now sid comm =
        (.error "invalidFormat", (closePendingSession s sid).2)) ∧
    (∀ kv bytes, s.pendingSessions.find? (fun kv => kv.1 = sid) = some kv →
      c.b64dec comm = some bytes → kv.2.processOk bytes = false →
      confirmPairing c s now sid comm =
        (.error "commitmentMismatch", (closePendingSession s sid).2)) ∧
    (∀ kv bytes, s.pendingSessions.find? (fun kv => kv.1 = sid) = some kv →
      c.b64dec comm = some bytes → kv.2.processOk bytes = true →
      confirmPairing c s now sid comm =
        (.ok (c.b64enc c.fingerprint,
              c.b64enc (c.hmac (kv.2.keyFn bytes) c.fingerprint)),
         { s with
           pendingSessions := s.pendingSessions.filter (fun kv => ¬ kv.1 = sid),
           confirmedSessions := insertIfAbsent s.confirmedSessions sid (kv.2.keyFn bytes),
           tasks := s.tasks ++ [(now + kSessionExpirationSeconds, sid, true)] })) := by
  refine ⟨?_, ?_, ?_, ?_⟩
  · intro hf
    unfold confirmPairing
    rw [hf]
  · intro kv hf hdec
    unfold confirmPairing
    rw [hf, hdec]
  · intro kv bytes hf hdec hproc
    unfold confirmPairing
    rw [hf, hdec]
    simp [hproc]
  · intro kv bytes hf hdec hproc
    unfold confirmPairing
    rw [hf, hdec]
    simp [hproc, closePendingSession]

/-- Witness for C3: the success case of `confirmPairing_spec` at the
    demonstration state, with every hypothesis discharged concretely. -/
theorem confirmPairing_spec_witness :
    confirmPairing demoCrypto demoSM 10 "sid1" "c" =
      (.ok (demoCrypto.b64enc demoCrypto.fingerprint,
            demoCrypto.b64enc (demoCrypto.hmac
              ((unsecureExchanger "1234").keyFn [7]) demoCrypto.fingerprint)),
       { demoSM with
         pendingSessions := demoSM.pendingSessions.filter (fun kv => ¬ kv.1 = "sid1"),
         confirmedSessions := insertIfAbsent demoSM.confirmedSessions "sid1"
           ((unsecureExchanger "1234").keyFn [7]),
         tasks := demoSM.tasks ++ [(10 + kSessionExpirationSeconds, "sid1", true)] }) :=
  (confirmPairing_spec demoCrypto demoSM 10 "sid1" "c").2.2.2
    ("sid1", unsecureExchanger "1234") [7] rfl rfl rfl

/-- Erasing a session id never occurs among the remaining pending ids. -/
theorem not_mem_filtered_pending_ids (l : List (String × KeyExchanger)) (sid : String) :
    sid ∉ (l.filter (fun kv => ¬ kv.1 = sid)).map (fun kv => kv.1) := by
  intro hmem
  simp only [List.mem_map, List.mem_filter, decide_not, Bool.not_eq_eq_eq_not,
    Bool.not_true, decide_eq_false_iff_not] at hmem
  obtain ⟨kv, ⟨_, hne⟩, heq⟩ := hmem
  exact hne heq

/-- `List.any` false means the key is absent. -/
theorem not_mem_ids_of_any_false (m : List (String × List Nat)) (k : String)
    (h : m.any (fun kv => kv.1 = k) = false) :
    k ∉ m.map (fun kv => kv.1) := by
  intro hmem
  simp only [List.any_eq_false, decide_eq_true_eq] at h
  simp only [List.mem_map] at hmem
  obtain ⟨kv, hkv, heq⟩ := hmem
  exact h kv hkv heq

/-- Ids after `insertIfAbsent` of an absent key. -/
theorem insertIfAbsent_ids_absent (m : List (String × List Nat)) (k : String)
    (v : List Nat) (h : m.any (fun kv => kv.1 = k) = false) :
    (insertIfAbsent m k v).map (fun kv => kv.1) = m.map (fun kv => kv.1) ++ [k] := by
  unfold insertIfAbsent
  rw [h]
  simp

/-- Closing a pending session preserves the session invariant. -/
theorem sessionInv_closePending (s : SMState) (sid : String) :
    SessionInv s → SessionInv (closePendingSession s sid).2 := by
  rintro ⟨hlen, hnd⟩
  refine ⟨?_, ?_⟩
  · simpa [closePendingSession] using
      le_trans (List.length_filter_le _ _) hlen
  · simp only [closePendingSession, pendingIds, confirmedIds]
    exact List.Nodup.sublist
      (((List.filter_sublist _).map _).append_right _) hnd

/-- Closing a confirmed session preserves the session invariant. -/
theorem sessionInv_closeConfirmed (s : SMState) (sid : String) :
    SessionInv s → SessionInv (closeConfirmedSession s sid).2 := by
  rintro ⟨hlen, hnd⟩
  refine ⟨?_, ?_⟩
  · simpa [closeConfirmedSession] using hlen
  · simp only [closeConfirmedSession, pendingIds, confirmedIds]
    exact List.Nodup.sublist
      ((List.filter_sublist _).map _ |>.append_left _) hnd

/-- `CancelPairing` preserves the session invariant. -/
theorem sessionInv_cancel (s : SMState) (sid : String) :
    SessionInv s → SessionInv (cancelPairing s sid).2 := by
  intro h
  have h1 := sessionInv_closeConfirmed s sid h
  have h2 := sessionInv_closePending (closeConfirmedSession s sid).2 sid h1
  unfold cancelPairing
  rcases h2 with ⟨hlen, hnd⟩
  by_cases hp : (closePendingSession (closeConfirmedSession s sid).2 sid).1 = true
  · by_cases hc : (closeConfirmedSession s sid).1 = true <;>
      simp [hp, hc, SessionInv, pendingIds, confirmedIds] at hlen hnd ⊢ <;>
      exact ⟨hlen, hnd⟩
  · replace hp : (closePendingSession (closeConfirmedSession s sid).2 sid).1 = false := by
      simpa using hp
    by_cases hc : (closeConfirmedSession s sid).1 = true <;>
      simp [hp, hc, SessionInv, pendingIds, confirmedIds] at hlen hnd ⊢ <;>
      exact ⟨hlen, hnd⟩

/-- `IsValidPairingCode` never touches the session sets, so it preserves the
    session invariant. -/
theorem sessionInv_isValid (c : Crypto) (s : SMState) (authCode : String) :
    SessionInv s → SessionInv (isValidPairingCode c s authCode).2 := by
  rintro ⟨hlen, hnd⟩
  unfold isValidPairingCode
  split
  · exact ⟨hlen, hnd⟩
  · cases hdec : c.b64dec authCode with
    | none => dsimp only; exact ⟨hlen, hnd⟩
    | some decoded =>
      dsimp only
      cases hfind : s.confirmedSessions.find?
          (fun kv => decoded = c.hmac kv.2 (strBytes kv.1)) with
      | none => dsimp only; exact ⟨hlen, hnd⟩
      | some kv =>
        dsimp only
        exact ⟨by simpa [pendingIds] using hlen,
               by simpa [pendingIds, confirmedIds] using hnd⟩

/-- `ConfirmPairing` preserves the session invariant. -/
theorem sessionInv_confirm (c : Crypto) (s : SMState) (now : Int)
    (sid comm : String) :
    SessionInv s → SessionInv (confirmPairing c s now sid comm).2 := by
  intro h
  obtain ⟨hlen, hnd⟩ := h
  unfold confirmPairing
  cases hf : s.pendingSessions.find? (fun kv => kv.1 = sid) with
  | none => exact ⟨hlen, hnd⟩
  | some kv =>
    dsimp only
    cases hdec : c.b64dec comm with
    | none => dsimp only; exact sessionInv_closePending s sid ⟨hlen, hnd⟩
    | some bytes =>
      dsimp only
      by_cases hp : kv.2.processOk bytes = true
      · rw [if_neg (not_not_intro hp)]
        refine ⟨?_, ?_⟩
        · simpa [closePendingSession] using
            le_trans (List.length_filter_le _ _) hlen
        · simp only [closePendingSession, pendingIds, confirmedIds]
          by_cases habs : s.confirmedSessions.any (fun kv => kv.1 = sid) = true
          · have heq : insertIfAbsent s.confirmedSessions sid (kv.2.keyFn bytes) =
                s.confirmedSessions := by unfold insertIfAbsent; rw [if_pos habs]
            rw [heq]
            exact List.Nodup.sublist
              (((List.filter_sublist _).map _).append_right _) hnd
          · replace habs : s.confirmedSessions.any (fun kv => kv.1 = sid) = false :=
              Bool.eq_false_iff.mpr habs
            rw [insertIfAbsent_ids_absent _ _ _ habs]
            have hsub : List.Sublist
                ((s.pendingSessions.filter (fun kv => ¬ kv.1 = sid)).map
                    (fun kv => kv.1) ++ s.confirmedSessions.map (fun kv => kv.1))
                (s.pendingSessions.map (fun kv => kv.1) ++
                  s.confirmedSessions.map (fun kv => kv.1)) :=
              ((List.filter_sublist _).map _).append_right _
            have hnd' := List.Nodup.sublist hsub hnd
            rw [← List.append_assoc]
            rw [List.nodup_append]
            refine ⟨hnd', List.nodup_singleton _, ?_⟩
            intro a ha hb
            simp only [List.mem_singleton] at hb
            subst hb
            rcases List.mem_append.mp ha with h1 | h2
            · exact not_mem_filtered_pending_ids _ _ h1
            · exact not_mem_ids_of_any_false _ _ habs h2
      · rw [if_pos hp]
        exact sessionInv_closePending s sid ⟨hlen, hnd⟩

/-- The per-branch state of `StartPairing`: every failure leaves the session
    sets untouched; success replaces the pending set with exactly the fresh
    session and leaves the confirmed set untouched. -/
theorem startPairing_sessions (c : Crypto) (s : SMState) (now : Int)
    (mode : PairingType) (crypto : CryptoType) (pin guid : String) :
    (((startPairing c s now mode crypto pin guid).1.isOk = false →
      pendingIds (startPairing c s now mode crypto pin guid).2 = pendingIds s ∧
      confirmedIds (startPairing c s now mode crypto pin guid).2 = confirmedIds s)) ∧
    ((startPairing c s now mode crypto pin guid).1.isOk = true →
      pendingIds (startPairing c s now mode crypto pin guid).2 = [guid] ∧
      confirmedIds (startPairing c s now mode crypto pin guid).2 = confirmedIds s) ∧
    (∀ r : String × String,
      (startPairing c s now mode crypto pin guid).1 = .ok r → r.1 = guid) := by
  unfold startPairing
  cases hchk : checkIfPairingAllowed s now with
  | mk ok1 s1 =>
    have hs1 : s1.pendingSessions = s.pendingSessions ∧
        s1.confirmedSessions = s.confirmedSessions := by
      unfold checkIfPairingAllowed at hchk
      split at hchk
      · cases hchk; exact ⟨rfl, rfl⟩
      · split at hchk
        · cases hchk; exact ⟨rfl, rfl⟩
        · dsimp only at hchk
          split at hchk <;> (cases hchk; exact ⟨rfl, rfl⟩)
    cases ok1 with
    | false =>
      dsimp only
      refine ⟨fun _ => ?_, fun hok => by simp [Except.isOk, Except.toBool] at hok,
        fun r hr => by simp at hr⟩
      simp [pendingIds, confirmedIds, hs1.1, hs1.2]
    | true =>
      dsimp only
      by_cases hm : s1.pairingModes.contains mode = true
      · rw [if_neg (not_not_intro hm)]
        cases crypto with
        | spake_p224 =>
          dsimp only
          refine ⟨fun hok => by simp [Except.isOk, Except.toBool] at hok,
            fun _ => ?_, fun r hr => ?_⟩
          · constructor
            · simp [pendingIds]
            · simp [confirmedIds, hs1.2]
          · simp only [Except.ok.injEq] at hr
            rw [← hr]
        | none =>
          dsimp only
          by_cases hdis : s1.securityDisabled = true
          · rw [if_pos hdis]
            dsimp only
            refine ⟨fun hok => by simp [Except.isOk, Except.toBool] at hok,
              fun _ => ?_, fun r hr => ?_⟩
            · constructor
              · simp [pendingIds]
              · simp [confirmedIds, hs1.2]
            · simp only [Except.ok.injEq] at hr
              rw [← hr]
          · rw [if_neg hdis]
            dsimp only
            refine ⟨fun _ => ?_, fun hok => by simp [Except.isOk, Except.toBool] at hok,
              fun r hr => by simp at hr⟩
            simp [pendingIds, confirmedIds, hs1.1, hs1.2]
      · rw [if_pos hm]
        dsimp only
        refine ⟨fun _ => ?_, fun hok => by simp [Except.isOk, Except.toBool] at hok,
          fun r hr => by simp at hr⟩
        simp [pendingIds, confirmedIds, hs1.1, hs1.2]

/-- **C4.**  Session invariants: every `SecurityManager` operation preserves
    "at most one pending session, and ids unique across pending ∪ confirmed"
    (for `StartPairing` under the freshness guarantee of its GUID-generation
    loop); moreover `StartPairing` closes every existing pending session
    before registering its own — on success the pending set is exactly the
    new session, whose id is the fresh GUID — and leaves the confirmed
    sessions untouched. -/
theorem pairing_session_invariants (c : Crypto) (s : SMState) (now : Int)
    (mode : PairingType) (crypto : CryptoType)
    (pin guid sid comm authCode : String) :
    ((startPairing c s now mode crypto pin guid).1.isOk = true →
      pendingIds (startPairing c s now mode crypto pin guid).2 = [guid] ∧
      confirmedIds (startPairing c s now mode crypto pin guid).2 = confirmedIds s ∧
      (∀ r : String × String,
        (startPairing c s now mode crypto pin guid).1 = .ok r → r.1 = guid)) ∧
    (guid ∉ confirmedIds s → SessionInv s →
      SessionInv (startPairing c s now mode crypto pin guid).2) ∧
    (SessionInv s → SessionInv (confirmPairing c s now sid comm).2) ∧
    (SessionInv s → SessionInv (cancelPairing s sid).2) ∧
    (SessionInv s → SessionInv (closePendingSession s sid).2) ∧
    (SessionInv s → SessionInv (closeConfirmedSession s sid).2) ∧
    (SessionInv s → SessionInv (isValidPairingCode c s authCode).2) := by
  obtain ⟨hfail, hok, hid⟩ := startPairing_sessions c s now mode crypto pin guid
  refine ⟨fun h => ⟨(hok h).1, (hok h).2, hid⟩, ?_, sessionInv_confirm c s now sid comm,
    sessionInv_cancel s sid, sessionInv_closePending s sid,
    sessionInv_closeConfirmed s sid, sessionInv_isValid c s authCode⟩
  intro hguid hinv
  cases hko : (startPairing c s now mode crypto pin guid).1.isOk with
  | false =>
    obtain ⟨hp, hc⟩ := hfail hko
    exact ⟨by rw [show (startPairing c s now mode crypto pin guid).2.pendingSessions.length =
        (pendingIds (startPairing c s now mode crypto pin guid).2).length by
          simp [pendingIds], hp]; simpa [pendingIds] using hinv.1,
      by rw [hp, hc]; exact hinv.2⟩
  | true =>
    obtain ⟨hp, hc⟩ := hok hko
    refine ⟨?_, ?_⟩
    · rw [show (startPairing c s now mode crypto pin guid).2.pendingSessions.length =
        (pendingIds (startPairing c s now mode crypto pin guid).2).length by
          simp [pendingIds], hp]
      simp
    · rw [hp, hc]
      simp only [List.singleton_append, List.nodup_cons]
      exact ⟨hguid, List.Nodup.sublist (List.sublist_append_right _ _) hinv.2⟩

/-- `CheckIfPairingAllowed` with security enabled and no active block:
    admit, incrementing the attempts counter, and arm the block exactly when
    the counter reaches the maximum. -/
theorem checkIfPairingAllowed_ok (s : SMState) (now : Int)
    (hdis : s.securityDisabled = false) (hblk : ¬ now < s.blockPairingUntil) :
    checkIfPairingAllowed s now =
      (true, { s with
        pairingAttempts := s.pairingAttempts + 1,
        blockPairingUntil :=
          if kMaxAllowedPairingAttemts ≤ s.pairingAttempts + 1
          then now + kPairingBlockingSeconds else s.blockPairingUntil }) := by
  unfold checkIfPairingAllowed
  rw [if_neg (by simp [hdis]), if_neg hblk]
  dsimp only
  by_cases hatt : kMaxAllowedPairingAttemts ≤ s.pairingAttempts + 1
  · simp [hatt]
  · simp [hatt]

/-- `StartPairing` during an active block fails with `deviceBusy` and leaves
    the state unchanged. -/
theorem startPairing_busy (c : Crypto) (s : SMState) (now : Int)
    (mode : PairingType) (crypto : CryptoType) (pin guid : String)
    (hdis : s.securityDisabled = false) (hblk : now < s.blockPairingUntil) :
    startPairing c s now mode crypto pin guid = (.error "deviceBusy", s) := by
  unfold startPairing checkIfPairingAllowed
  rw [if_neg (by simp [hdis]), if_pos hblk]

/-- The throttle bookkeeping of a successful `StartPairing` (with security
    enabled): admission was not blocked, the attempts counter advanced by
    one, the block was armed exactly when the counter reached the maximum,
    and the configuration fields are untouched. -/
theorem startPairing_ok_state (c : Crypto) (s : SMState) (now : Int)
    (mode : PairingType) (crypto : CryptoType) (pin guid : String)
    (r : String × String) (s' : SMState)
    (hdis : s.securityDisabled = false)
    (h : startPairing c s now mode crypto pin guid = (.ok r, s')) :
    s'.securityDisabled = false ∧ s'.pairingModes = s.pairingModes ∧
    s'.embeddedCode = s.embeddedCode ∧
    s'.pairingAttempts = s.pairingAttempts + 1 ∧
    s'.blockPairingUntil =
      (if kMaxAllowedPairingAttemts ≤ s.pairingAttempts + 1
       then now + kPairingBlockingSeconds else s.blockPairingUntil) ∧
    ¬ now < s.blockPairingUntil := by
  by_cases hblk : now < s.blockPairingUntil
  · rw [startPairing_busy c s now mode crypto pin guid hdis hblk] at h
    exact absurd h (by simp)
  · unfold startPairing at h
    rw [checkIfPairingAllowed_ok s now hdis hblk] at h
    dsimp only at h
    split at h
    · exact absurd h (by simp)
    · split at h
      · exact absurd h (by simp)
      · rw [Prod.mk.injEq] at h
        obtain ⟨_, h2⟩ := h
        rw [← h2]
        exact ⟨hdis, rfl, rfl, rfl, rfl, hblk⟩

/-- A successful `IsValidPairingCode` (with security enabled) resets the
    attempts counter and the block deadline, touching nothing else. -/
theorem isValid_true_resets (c : Crypto) (st : SMState) (a : String)
    (hdis : st.securityDisabled = false)
    (h : (isValidPairingCode c st a).1 = true) :
    (isValidPairingCode c st a).2 =
      { st with pairingAttempts := 0, blockPairingUntil := 0 } := by
  unfold isValidPairingCode at h ⊢
  rw [if_neg (by simp [hdis])] at h ⊢
  cases hdec : c.b64dec a with
  | none => rw [hdec] at h; exact absurd h Bool.false_ne_true
  | some decoded =>
    rw [hdec] at h
    dsimp only at h ⊢
    cases hfind : st.confirmedSessions.find?
        (fun kv => decoded = c.hmac kv.2 (strBytes kv.1)) with
    | none => rw [hfind] at h; exact absurd h Bool.false_ne_true
    | some kv => dsimp only

/-- **C2.**  Brute-force throttle: starting from a fresh security-enabled
    manager (max attempts 3, block 1 min), after three `StartPairing` calls
    with no intervening cancel and no successful `IsValidPairingCode`, the
    attempts counter is 3 and every further `StartPairing` during the 60
    seconds following the third call fails with `deviceBusy` without mutating
    the state; a successful `IsValidPairingCode` resets both the counter and
    the block deadline, after which admission passes again; mere passage of
    the block time does not reset the counter — the first admission after the
    block expires runs it to 4 and re-arms the block. -/
theorem pairing_bruteforce_throttle
    (c : Crypto) (modes : List PairingType) (code : String)
    (t1 t2 t3 : Int) (m1 m2 m3 : PairingType) (x1 x2 x3 : CryptoType)
    (p1 p2 p3 g1 g2 g3 : String)
    (r1 r2 r3 : String × String) (s1 s2 s3 : SMState)
    (ht1 : 0 ≤ t1) (ht12 : t1 ≤ t2) (ht23 : t2 ≤ t3)
    (h1 : startPairing c (freshSM modes code) t1 m1 x1 p1 g1 = (.ok r1, s1))
    (h2 : startPairing c s1 t2 m2 x2 p2 g2 = (.ok r2, s2))
    (h3 : startPairing c s2 t3 m3 x3 p3 g3 = (.ok r3, s3)) :
    s3.pairingAttempts = 3 ∧
    s3.blockPairingUntil = t3 + kPairingBlockingSeconds ∧
    (∀ t m x p g, t3 ≤ t → t < t3 + kPairingBlockingSeconds →
      startPairing c s3 t m x p g = (.error "deviceBusy", s3)) ∧
    (∀ st a, st.securityDisabled = false → (isValidPairingCode c st a).1 = true →
      (isValidPairingCode c st a).2.pairingAttempts = 0 ∧
      (isValidPairingCode c st a).2.blockPairingUntil = 0 ∧
      (∀ t', 0 ≤ t' →
        (checkIfPairingAllowed (isValidPairingCode c st a).2 t').1 = true)) ∧
    (∀ t', t3 + kPairingBlockingSeconds ≤ t' →
      checkIfPairingAllowed s3 t' =
        (true, { s3 with
                 pairingAttempts := 4,
                 blockPairingUntil := t' + kPairingBlockingSeconds })) := by
  obtain ⟨d1, _, _, a1, b1, _⟩ :=
    startPairing_ok_state c _ t1 m1 x1 p1 g1 r1 s1 rfl h1
  obtain ⟨d2, _, _, a2, b2, _⟩ :=
    startPairing_ok_state c s1 t2 m2 x2 p2 g2 r2 s2 d1 h2
  obtain ⟨d3, _, _, a3, b3, _⟩ :=
    startPairing_ok_state c s2 t3 m3 x3 p3 g3 r3 s3 d2 h3
  have hfa : (freshSM modes code).pairingAttempts = 0 := rfl
  have hfb : (freshSM modes code).blockPairingUntil = 0 := rfl
  have ha1 : s1.pairingAttempts = 1 := by rw [a1, hfa]
  have ha2 : s2.pairingAttempts = 2 := by rw [a2, ha1]
  have ha3 : s3.pairingAttempts = 3 := by rw [a3, ha2]
  have hb1 : s1.blockPairingUntil = 0 := by
    rw [b1, hfa, hfb]
    norm_num [kMaxAllowedPairingAttemts]
  have hb2 : s2.blockPairingUntil = 0 := by
    rw [b2, ha1, hb1]
    norm_num [kMaxAllowedPairingAttemts]
  have hb3 : s3.blockPairingUntil = t3 + kPairingBlockingSeconds := by
    rw [b3, ha2]
    norm_num [kMaxAllowedPairingAttemts]
  refine ⟨ha3, hb3, ?_, ?_, ?_⟩
  · intro t m x p g _ htlt
    exact startPairing_busy c s3 t m x p g d3 (by rw [hb3]; exact htlt)
  · intro st a hdis hvalid
    have hres := isValid_true_resets c st a hdis hvalid
    refine ⟨by rw [hres], by rw [hres], ?_⟩
    intro t' ht'
    rw [hres]
    unfold checkIfPairingAllowed
    rw [if_neg (by simp [hdis]), if_neg (by simpa using Int.not_lt.mpr ht')]
    dsimp only
    split <;> rfl
  · intro t' ht'
    rw [checkIfPairingAllowed_ok s3 t' d3
        (by rw [hb3]; exact Int.not_lt.mpr ht'), ha3]
    norm_num [kMaxAllowedPairingAttemts]

/-- Witness for C2: three concrete calls at time 0 arm the block; a fourth
    call at time 30 fails with `deviceBusy` and leaves the state unchanged. -/
theorem pairing_bruteforce_throttle_witness :
    startPairing demoCrypto throttleS3 30 .embeddedCode .spake_p224 "" "g4" =
      (.error "deviceBusy", throttleS3) :=
  (pairing_bruteforce_throttle demoCrypto [.embeddedCode] "1234"
      0 0 0 .embeddedCode .embeddedCode .embeddedCode
      .spake_p224 .spake_p224 .spake_p224 "" "" ""
      "g1" "g2" "g3" ("g1", "b64") ("g2", "b64") ("g3", "b64")
      throttleS1 throttleS2 throttleS3
      (by decide) (by decide) (by decide) rfl rfl rfl).2.2.1
    30 .embeddedCode .spake_p224 "" "g4" (by decide) (by decide)

/-- Witness for C4: the invariants applied at the demonstration manager
    with a fresh GUID, discharging the freshness and invariant hypotheses. -/
theorem pairing_session_invariants_witness :
    SessionInv (startPairing demoCrypto demoSM 0 .embeddedCode .spake_p224
      "" "g-fresh").2 :=
  ((pairing_session_invariants demoCrypto demoSM 0 .embeddedCode .spake_p224
      "" "g-fresh" "x" "y" "z").2.1)
    (by simp [confirmedIds, demoSM, freshSM])
    ⟨by simp [demoSM], by simp [pendingIds, confirmedIds, demoSM, freshSM]⟩

end Weave
